import Mathlib

/-!
Formal model of the data-parallel PPO actor of the RLPR repository
(`verl/workers/actor/dp_actor.py`).

The development shallowly embeds the actor's pure control and data logic:

* the dynamic micro-batch planner and the reverse-permutation bookkeeping of
  `compute_log_prob` / `compute_all_logits` (the planner itself and
  `get_reverse_idx` live outside the packaged source, so they are modelled
  from the specification);
* the packed (remove-padding) and dense paths of `_forward_micro_batch` and
  `_forward_micro_batch_2`, with the external model forward, the log-softmax
  gather and the entropy kernel kept abstract as parameters;
* the `update_policy` mini-batch / micro-batch loop with its metrics
  accumulator, loss scaling, auxiliary supervised (SFT) loss and the
  numerically guarded `_optimizer_step`.

Machine floats are modelled as rational values paired with a finiteness flag;
tensors are modelled as (nested) lists.
-/

namespace RLPR

/-! ### Generic list helpers -/

/-- Number of `true` entries of a boolean mask. -/
def cntT : List Bool → Nat
  | [] => 0
  | b :: ms => cntT ms + (if b then 1 else 0)

/-- Split a list into contiguous chunks of size `n` (the last chunk may be
shorter), as `torch.split` does; fuel-based recursion. -/
def splitChunksF : Nat → Nat → List α → List (List α)
  | 0, _, _ => []
  | _, _, [] => []
  | fuel + 1, n, x :: xs => (x :: xs.take (n - 1)) :: splitChunksF fuel n (xs.drop (n - 1))

/-- `batch.split(n)` of the source: contiguous chunks of `n` examples. -/
def splitChunks (n : Nat) (l : List α) : List (List α) :=
  splitChunksF l.length n l

/-- `mapM` over `Option`: the per-micro-batch loop of the source, which
propagates the first failure (a raised exception) and otherwise collects
the per-micro-batch results in order. -/
def mapOpt : List α → (α → Option β) → Option (List β)
  | [], _ => some []
  | x :: xs, f =>
    match f x, mapOpt xs f with
    | some y, some ys => some (y :: ys)
    | _, _ => none

/-! ### Dynamic micro-batch planner and reverse permutation

`rearrange_micro_batches` and `get_reverse_idx` are imported by
`dp_actor.py` from `verl.utils.seqlen_balancing`, which is not part of the
packaged source; both are modelled from the specification (§4.3). -/

/-- Insert into a list kept sorted by descending key `f`. -/
def insDesc (f : α → Nat) (x : α) : List α → List α
  | [] => [x]
  | y :: rest => if f y ≤ f x then x :: y :: rest else y :: insDesc f x rest

/-- Sort by descending key `f` (insertion sort). -/
def sortDesc (f : α → Nat) : List α → List α
  | [] => []
  | x :: rest => insDesc f x (sortDesc f rest)

/-- Greedily pack the (already length-sorted) items into consecutive groups
whose key totals stay within `budget`; an item that alone exceeds the budget
opens its own group. -/
def groupGreedyAux (budget : Nat) (f : α → Nat) :
    List α → List α → Nat → List (List α)
  | [], cur, _ => if cur.isEmpty then [] else [cur.reverse]
  | x :: rest, cur, s =>
    if cur.isEmpty ∨ s + f x ≤ budget then groupGreedyAux budget f rest (x :: cur) (s + f x)
    else cur.reverse :: groupGreedyAux budget f rest [x] (f x)

/-- Modelled from the spec: the dynamic-mode MicroBatchPlanner (§4.3).
Given a token budget it greedily groups examples into micro-batches whose
total token count stays within the budget, aiming to equalize per-worker
compute (largest-first), and returns the grouped micro-batches together
with the index lists that record which original example landed in which
slot of which micro-batch.  `rearrange_micro_batches` itself is not part of
the packaged source. -/
def rearrange_micro_batches (batch : List α) (len : α → Nat) (budget : Nat) (d : α) :
    List (List α) × List (List Nat) :=
  let lenAt : Nat → Nat := fun i => len (batch.getD i d)
  let order := sortDesc lenAt (List.range batch.length)
  let groups := groupGreedyAux budget lenAt order [] 0
  (groups.map (fun g => g.map (fun i => batch.getD i d)), groups)

/-- Index of the first occurrence of `p` in a list of naturals (length of the
list if absent). -/
def idxOfN : List Nat → Nat → Nat
  | [], _ => 0
  | q :: rest, p => if q = p then 0 else idxOfN rest p + 1

/-- Modelled from the spec: `get_reverse_idx` (§4.3), the reverse permutation
of a flattened index list: entry `p` holds the position at which original
example `p` appears in the flattened order, so that
`reverse[idx_map[i]] = i`.  Not part of the packaged source. -/
def get_reverse_idx (idx_map : List Nat) : List Nat :=
  (List.range idx_map.length).map (idxOfN idx_map)

/-- The dynamic-batching path of `compute_log_prob` (and, identically, of
`compute_log_prob_pr` / `compute_all_logits`): plan micro-batches, run the
per-example forward `f` on each micro-batch, concatenate the results, check
that the number of recorded indices matches the number of concatenated rows
(the source `assert`, modelled as returning `none` on violation) and reindex
by the reverse permutation. -/
def compute_log_prob_dyn (f : α → β) (len : α → Nat) (budget : Nat) (d : α) (dβ : β)
    (batch : List α) : Option (List β) :=
  let r := rearrange_micro_batches batch len budget d
  let conc := (r.1.map (fun mb => mb.map f)).flatten
  let indices := r.2.flatten
  if indices.length = conc.length then
    some ((get_reverse_idx indices).map (fun p => conc.getD p dβ))
  else none

/-! ### Machine floats and the metrics accumulator -/

/-- A machine float: a rational value together with a finiteness flag
(`torch.isfinite`).  Non-finite values (NaN/Inf) carry `finite := false`. -/
structure FVal where
  val : ℚ
  finite : Bool
deriving DecidableEq

/-- An ordinary finite float. -/
def fv (q : ℚ) : FVal := ⟨q, true⟩

/-- A value stored in the metrics dictionary: either a bare scalar (direct
assignment `metrics[k] = v`) or an append-only sequence (`append_to_dict`). -/
inductive MVal where
  | num : FVal → MVal
  | seq : List FVal → MVal
deriving DecidableEq

/-- The metrics accumulator: an insertion-ordered string-keyed dictionary. -/
abbrev Metrics := List (String × MVal)

/-- Dictionary lookup. -/
def lookupM : Metrics → String → Option MVal
  | [], _ => none
  | p :: rest, k => if p.1 = k then some p.2 else lookupM rest k

/-- The sequence stored at key `k` (empty if the key is absent or holds a
bare scalar). -/
def lookupSeq (m : Metrics) (k : String) : List FVal :=
  match lookupM m k with
  | some (MVal.seq l) => l
  | _ => []

/-- Overwrite-or-insert one entry. -/
def setEntry : Metrics → String → MVal → Metrics
  | [], k, v => [(k, v)]
  | p :: rest, k, v => if p.1 = k then (k, v) :: rest else p :: setEntry rest k v

/-- `metrics[k] = q`: direct scalar assignment of the source. -/
def setKey (m : Metrics) (k : String) (q : ℚ) : Metrics :=
  setEntry m k (MVal.num (fv q))

/-- `append_to_dict` (from `verl.utils.py_functional`) restricted to one key:
append `v` to the sequence stored at `k`, creating the sequence if the key
is absent. -/
def appendKey (m : Metrics) (k : String) (v : FVal) : Metrics :=
  setEntry m k (MVal.seq (lookupSeq m k ++ [v]))

/-! ### The `update_policy` loop -/

/-- A training example as seen by the `update_policy` loop: its token count
(used by the dynamic planner) and the two per-token rows consumed by the
auxiliary supervised loss.  All remaining per-example data only enters the
loop through the abstract loss collaborators and is therefore not
represented explicitly. -/
structure Ex where
  len : Nat
  gt_mask : List ℚ
  old_lp_pr : List ℚ
deriving DecidableEq

/-- Default example (used only as an out-of-range fallback). -/
def exD : Ex := ⟨0, [], []⟩

/-- The scalar outputs of the external loss collaborators
(`core_algos.compute_policy_loss`, `agg_loss`, `kl_penalty`) for one
micro-batch. -/
structure CoreOut where
  pg_loss : ℚ
  pg_clipfrac : ℚ
  ppo_kl : ℚ
  entropy_loss : ℚ
  kl_loss : ℚ
deriving DecidableEq

/-- The configuration fields consumed by the modelled code paths. -/
structure UPConfig where
  use_dynamic_bsz : Bool
  ppo_mini_batch_size : Nat
  ppo_micro_batch_size_per_gpu : Nat
  ppo_max_token_len_per_gpu : Nat
  ulysses_sequence_parallel_size : Nat
  entropy_coeff : ℚ
  use_kl_loss : Bool
  kl_loss_coef : ℚ
  use_sft_loss : Bool
  sft_multi_task : Bool
  sft_loss_coef : ℚ
deriving DecidableEq

/-- The epsilon guard `eps = 1e-6` of the source. -/
def epsC : ℚ := 1 / 1000000

/-- Per-example token means of the masked ground-truth log-probabilities:
`(ground_truth_mask_pr * old_log_probs_pr).sum(dim=1) /
 (ground_truth_mask_pr.sum(dim=1) + eps)`. -/
def tokenMeans (mb : List Ex) : List ℚ :=
  mb.map (fun e => (List.zipWith (· * ·) e.gt_mask e.old_lp_pr).sum / (e.gt_mask.sum + epsC))

/-- `torch.count_nonzero` of a vector, as a rational. -/
def countNZ (l : List ℚ) : ℚ :=
  ((l.filter (fun q => decide (q ≠ 0))).length : ℚ)

/-- The auxiliary supervised (SFT) loss of the source (lines 559-564 and,
identically, 582-587): the negative of the sum of per-example token means
divided by `count_nonzero(token means) + eps`. -/
def sftLoss (mb : List Ex) : ℚ :=
  -((tokenMeans mb).sum / (countNZ (tokenMeans mb) + epsC))

/-- The two objective modes of `update_policy`. -/
inductive Mode where
  | normal
  | sft_only
deriving DecidableEq

/-- The composite per-micro-batch loss before scaling: policy gradient minus
entropy bonus, plus the optional KL penalty and the optional auxiliary SFT
term in `normal` mode; the scaled SFT loss alone in `sft_only` mode. -/
def microPolicyLoss (cfg : UPConfig) (core : List Ex → CoreOut) (mode : Mode)
    (mb : List Ex) : ℚ :=
  match mode with
  | Mode.normal =>
    let c := core mb
    let pl := c.pg_loss - c.entropy_loss * cfg.entropy_coeff
    let pl := if cfg.use_kl_loss then pl + c.kl_loss * cfg.kl_loss_coef else pl
    if cfg.use_sft_loss && cfg.sft_multi_task then pl + sftLoss mb * cfg.sft_loss_coef else pl
  | Mode.sft_only => sftLoss mb * cfg.sft_loss_coef

/-- The loss actually passed to `loss.backward()`: the composite loss scaled
by `len(data) / ppo_mini_batch_size` under dynamic batching, and by
`1 / (ppo_mini_batch_size // ppo_micro_batch_size_per_gpu)` otherwise.
In `normal` mode the loop variable `data` has already been rebound (source
line 569) to the four-entry diagnostics dict before `len(data)` is read at
line 597, so the dynamic-mode factor there is `4 / ppo_mini_batch_size`;
only the `sft_only` branch, which never rebinds `data`, scales by the
micro-batch example count. -/
def microScaledLoss (cfg : UPConfig) (core : List Ex → CoreOut) (mode : Mode)
    (mb : List Ex) : ℚ :=
  match mode with
  | Mode.normal =>
    if cfg.use_dynamic_bsz then
      microPolicyLoss cfg core Mode.normal mb * ((4 : ℚ) / (cfg.ppo_mini_batch_size : ℚ))
    else
      microPolicyLoss cfg core Mode.normal mb /
        ((cfg.ppo_mini_batch_size / cfg.ppo_micro_batch_size_per_gpu : Nat) : ℚ)
  | Mode.sft_only =>
    if cfg.use_dynamic_bsz then
      microPolicyLoss cfg core Mode.sft_only mb * ((mb.length : ℚ) / (cfg.ppo_mini_batch_size : ℚ))
    else
      microPolicyLoss cfg core Mode.sft_only mb /
        ((cfg.ppo_mini_batch_size / cfg.ppo_micro_batch_size_per_gpu : Nat) : ℚ)

/-- One micro-batch iteration of `update_policy`: compute the composite loss,
record the per-micro-batch diagnostics, scale the loss and run the backward
pass.  The state is (accumulated gradient, trace of losses passed to
`backward`, metrics).  The gradient of the model is abstracted as a function
`gradOf` of the scalar loss, accumulated additively as autograd does.
In `normal` mode, the source rebinds the loop variable `data` to the
diagnostics dict (`data = {'actor/entropy_loss': ..., ...}`, line 569)
before `append_to_dict(metrics, data)` and before the scaling reads
`len(data)` at line 597; `dataDict` models that rebound dict, so the
dynamic-mode scale factor is its length (4), not the example count. -/
def processMicro (cfg : UPConfig) (core : List Ex → CoreOut) (gradOf : ℚ → ℚ) (mode : Mode)
    (st : ℚ × List ℚ × Metrics) (mb : List Ex) : ℚ × List ℚ × Metrics :=
  match mode with
  | Mode.normal =>
    let c := core mb
    let pl0 := c.pg_loss - c.entropy_loss * cfg.entropy_coeff
    let plm :=
      if cfg.use_kl_loss then
        (pl0 + c.kl_loss * cfg.kl_loss_coef,
         setKey (setKey st.2.2 "actor/kl_loss" c.kl_loss) "actor/kl_coef" cfg.kl_loss_coef)
      else (pl0, st.2.2)
    let plm2 :=
      if cfg.use_sft_loss && cfg.sft_multi_task then
        (plm.1 + sftLoss mb * cfg.sft_loss_coef,
         setKey (setKey plm.2 "actor/sft_loss" (sftLoss mb)) "actor/sft_coef" cfg.sft_loss_coef)
      else plm
    let dataDict : List (String × ℚ) :=
      [("actor/entropy_loss", c.entropy_loss), ("actor/pg_loss", c.pg_loss),
       ("actor/pg_clipfrac", c.pg_clipfrac), ("actor/ppo_kl", c.ppo_kl)]
    let m4 := dataDict.foldl (fun m p => appendKey m p.1 (fv p.2)) plm2.2
    let loss :=
      if cfg.use_dynamic_bsz then
        plm2.1 * ((dataDict.length : ℚ) / (cfg.ppo_mini_batch_size : ℚ))
      else
        plm2.1 / ((cfg.ppo_mini_batch_size / cfg.ppo_micro_batch_size_per_gpu : Nat) : ℚ)
    (st.1 + gradOf loss, st.2.1 ++ [loss], m4)
  | Mode.sft_only =>
    let sl := sftLoss mb * cfg.sft_loss_coef
    let m1 := setKey (setKey st.2.2 "actor/sft_loss" (sftLoss mb)) "actor/sft_coef" cfg.sft_loss_coef
    let loss :=
      if cfg.use_dynamic_bsz then
        sl * ((mb.length : ℚ) / (cfg.ppo_mini_batch_size : ℚ))
      else
        sl / ((cfg.ppo_mini_batch_size / cfg.ppo_micro_batch_size_per_gpu : Nat) : ℚ)
    (st.1 + gradOf loss, st.2.1 ++ [loss], m1)

/-- The external optimizer/clipping collaborators: `clip` is the gradient
clipping primitive (it returns the pre-clip global norm and the possibly
rescaled gradients), `step` is the optimizer's parameter update from the
current gradients. -/
structure Opt (P : Type) where
  clip : ℚ → FVal × ℚ
  step : P → ℚ → P

/-- `_optimizer_step` of the source: clip gradients obtaining the global
norm; if the norm is not finite, skip the optimizer update and zero the
gradients; otherwise apply the optimizer step.  Returns the norm and the
new (parameters, gradients). -/
def optimizer_step (opt : Opt P) (params : P) (grads : ℚ) : FVal × P × ℚ :=
  let r := opt.clip grads
  if r.1.finite then (r.1, opt.step params r.2, r.2)
  else (r.1, params, 0)

/-- Key under which the gradient norm is recorded, per mode (the `sft_only`
key reproduces the source's spelling verbatim). -/
def gradKey : Mode → String
  | Mode.normal => "actor/grad_norm"
  | Mode.sft_only => "acotr/sft_grad_norm"

/-- Micro-batch split of one mini-batch: the dynamic planner under
`use_dynamic_bsz`, otherwise fixed-size chunks of
`ppo_micro_batch_size_per_gpu`. -/
def microSplit (cfg : UPConfig) (mini : List Ex) : List (List Ex) :=
  if cfg.use_dynamic_bsz then
    (rearrange_micro_batches mini Ex.len
      (cfg.ppo_max_token_len_per_gpu * cfg.ulysses_sequence_parallel_size) exD).1
  else splitChunks cfg.ppo_micro_batch_size_per_gpu mini

/-- One mini-batch iteration of `update_policy`: zero gradients, run all
micro-batches, clip/step the optimizer guarded by the finiteness of the
gradient norm, and record the norm.  State: (params, grads, backward trace,
metrics). -/
def processMini (cfg : UPConfig) (core : List Ex → CoreOut) (gradOf : ℚ → ℚ) (mode : Mode)
    (opt : Opt P) (st : P × ℚ × List ℚ × Metrics) (mini : List Ex) :
    P × ℚ × List ℚ × Metrics :=
  let mbs := microSplit cfg mini
  let r := mbs.foldl (processMicro cfg core gradOf mode) (0, st.2.2.1, st.2.2.2)
  let o := optimizer_step opt st.1 r.1
  let m := appendKey r.2.2 (gradKey mode) o.1
  (o.2.1, o.2.2, r.2.1, m)

/-- `update_policy`: split the batch into mini-batches, process each, zero
gradients once more at the end and return.  The returned state carries the
final parameters, the (zeroed) gradients, the ghost trace of all losses
passed to `backward`, and the metrics accumulator that the source
returns. -/
def update_policy (cfg : UPConfig) (core : List Ex → CoreOut) (gradOf : ℚ → ℚ) (mode : Mode)
    (opt : Opt P) (params : P) (grads0 : ℚ) (batch : List Ex) :
    P × ℚ × List ℚ × Metrics :=
  let minis := splitChunks cfg.ppo_mini_batch_size batch
  let r := minis.foldl (processMini cfg core gradOf mode opt) (params, grads0, [], [])
  (r.1, 0, r.2.2.1, r.2.2.2)

/-! ### Specification-side formulations of the auxiliary supervised loss -/

/-- Per-example masked mean of the ground-truth log-probabilities: the
example's masked sum divided by its ground-truth-token count,
epsilon-guarded (spec §4.5). -/
def specMaskedMean (e : Ex) : ℚ :=
  (List.zipWith (· * ·) e.gt_mask e.old_lp_pr).sum / (e.gt_mask.sum + epsC)

/-- The auxiliary supervised loss exactly as the specification words it:
negative of (sum of per-example masked means, divided (epsilon-guarded) by
the number of examples that have at least one ground-truth token). -/
def specSftClaimed (mb : List Ex) : ℚ :=
  -((mb.map specMaskedMean).sum /
    ((mb.countP (fun e => decide (e.gt_mask.sum ≠ 0)) : ℚ) + epsC))

/-- The auxiliary supervised loss with the denominator amended to what the
code computes: the number of examples whose epsilon-guarded masked mean is
nonzero. -/
def specSftAmended (mb : List Ex) : ℚ :=
  -((mb.map specMaskedMean).sum /
    ((mb.countP (fun e => decide (specMaskedMean e ≠ 0)) : ℚ) + epsC))

/-! ### The per-micro-batch forward passes -/

/-- The argument record of one invocation of the external model forward
(`self.actor_module(...)`). -/
structure ModelInput where
  input_ids : List (List Nat)
  position_ids : List (List Nat)
  attention_mask : Option (List (List Bool))
  use_cache : Bool
deriving DecidableEq

/-- Configuration of the forward paths. -/
structure FwdCfg where
  use_remove_padding : Bool
  sp_size : Nat
deriving DecidableEq

/-- Keep the entries of a row selected by a boolean mask (`unpad_input`,
restricted to one row). -/
def selRow : List Bool → List α → List α
  | [], _ => []
  | _, [] => []
  | b :: ms, x :: xs => if b then x :: selRow ms xs else selRow ms xs

/-- `unpad_input`: concatenate the mask-selected entries of all rows in
row-major order (spec §4.1, `flash_attn.bert_padding.unpad_input`). -/
def packStream (mask : List (List Bool)) (x : List (List α)) : List α :=
  (List.zipWith selRow mask x).flatten

/-- Total number of valid positions of a mask. -/
def totalCnt : List (List Bool) → Nat
  | [] => 0
  | m :: ms => cntT m + totalCnt ms

/-- Flat (packed) index of padded position `(i, c)`: the number of valid
positions strictly before it in row-major order. -/
def flatIdx : List (List Bool) → Nat → Nat → Nat
  | [], _, _ => 0
  | m :: _, 0, c => cntT (m.take c)
  | m :: ms, i + 1, c => cntT m + flatIdx ms i c

/-- Scatter one row back to the padded layout, filling masked-out positions
with `z` (`pad_input`, restricted to one row). -/
def padRow (z : α) : List Bool → List α → List α
  | [], _ => []
  | false :: ms, vals => z :: padRow z ms vals
  | true :: ms, [] => z :: padRow z ms []
  | true :: ms, v :: vs => v :: padRow z ms vs

/-- `pad_input`: scatter the flat values back to the `(N, S)` padded layout
recorded by the mask, zero-filling all removed positions (spec §4.1). -/
def padInput (z : α) : List (List Bool) → List α → List (List α)
  | [], _ => []
  | m :: ms, vals => padRow z m (vals.take (cntT m)) :: padInput z ms (vals.drop (cntT m))

/-- `torch.roll(·, shifts=-1)` along the token axis: position `k` receives
the entry of position `k+1`, the last position wraps to the first. -/
def rollL (l : List α) : List α := l.drop 1 ++ l.take 1

/-- Sequence-parallel padding size: `(sp - L mod sp) mod sp` (spec §4.2). -/
def ulyPad (L sp : Nat) : Nat := (sp - L % sp) % sp

/-- The packed token stream handed to the model: the unpadded stream, padded
on the right for sequence parallelism when `sp_size > 1`
(`ulysses_pad_and_slice_inputs`; the shard/gather collective is modelled by
its round-trip contract, spec §4.2). -/
def packedIn (cfg : FwdCfg) (mask : List (List Bool)) (x : List (List Nat)) : List Nat :=
  if 1 < cfg.sp_size then
    packStream mask x ++ List.replicate (ulyPad (packStream mask x).length cfg.sp_size) 0
  else packStream mask x

/-- The model invocation of the packed path: packed token ids and position
ids (batch dimension 1), no attention mask, caching disabled. -/
def packedModelInput (cfg : FwdCfg) (mask : List (List Bool))
    (ids pos : List (List Nat)) : ModelInput :=
  ⟨[packedIn cfg mask ids], [packedIn cfg mask pos], none, false⟩

/-- The per-position logits of the packed forward (`output.logits.squeeze(0)`). -/
def packedLogits (model : ModelInput → List (List (List ℚ))) (cfg : FwdCfg)
    (mask : List (List Bool)) (ids pos : List (List Nat)) : List (List ℚ) :=
  (model (packedModelInput cfg mask ids pos)).headD []

/-- The packed logits after the in-place division by the temperature
(`logits_rmpad.div_(temperature)`). -/
def packedScaled (model : ModelInput → List (List (List ℚ))) (cfg : FwdCfg)
    (mask : List (List Bool)) (ids pos : List (List Nat)) (τ : ℚ) : List (List ℚ) :=
  (packedLogits model cfg mask ids pos).map (List.map (· / τ))

/-- The next-token label stream: `torch.roll(input_ids_rmpad, -1)`, padded
for sequence parallelism after rolling (as the source does). -/
def packedLabels (cfg : FwdCfg) (mask : List (List Bool)) (ids : List (List Nat)) : List Nat :=
  if 1 < cfg.sp_size then
    rollL (packStream mask ids) ++
      List.replicate (ulyPad (packStream mask ids).length cfg.sp_size) 0
  else rollL (packStream mask ids)

/-- The flat per-position log-probabilities of the packed path:
`logprobs_from_logits` applied position-wise (`lpOf` is the abstract
log-softmax gather), gathered and unpadded across ranks when `sp_size > 1`. -/
def packedLpFlat (model : ModelInput → List (List (List ℚ))) (lpOf : List ℚ → Nat → ℚ)
    (cfg : FwdCfg) (mask : List (List Bool)) (ids pos : List (List Nat)) (τ : ℚ) : List ℚ :=
  if 1 < cfg.sp_size then
    (List.zipWith lpOf (packedScaled model cfg mask ids pos τ)
      (packedLabels cfg mask ids)).take (packStream mask ids).length
  else
    List.zipWith lpOf (packedScaled model cfg mask ids pos τ) (packedLabels cfg mask ids)

/-- The flat per-position entropies of the packed path (`entOf` is the
abstract entropy kernel), gathered and unpadded when `sp_size > 1`. -/
def packedEntFlat (model : ModelInput → List (List (List ℚ))) (entOf : List ℚ → ℚ)
    (cfg : FwdCfg) (mask : List (List Bool)) (ids pos : List (List Nat)) (τ : ℚ) : List ℚ :=
  if 1 < cfg.sp_size then
    ((packedScaled model cfg mask ids pos τ).map entOf).take (packStream mask ids).length
  else
    (packedScaled model cfg mask ids pos τ).map entOf

/-- The dense path's temperature-scaled logits: the model invoked with the
padded ids, the real attention mask and caching disabled, then divided by
the temperature. -/
def denseScaledLogits (model : ModelInput → List (List (List ℚ)))
    (ids pos : List (List Nat)) (mask : List (List Bool)) (τ : ℚ) : List (List (List ℚ)) :=
  (model ⟨ids, pos, some mask, false⟩).map (List.map (List.map (· / τ)))

/-- The response-span slice `[:, -R-1:-1]` of a length-`S` row. -/
def sliceResp (S R : Nat) (row : List α) : List α := (row.drop (S - R - 1)).take R

/-- `_forward_micro_batch`: entropy and log-probability for the response
span, via the packed (remove-padding) path or the dense path. -/
def forward_micro_batch (model : ModelInput → List (List (List ℚ)))
    (lpOf : List ℚ → Nat → ℚ) (entOf : List ℚ → ℚ) (cfg : FwdCfg)
    (ids pos : List (List Nat)) (mask : List (List Bool)) (resp : List (List Nat))
    (τ : ℚ) : List (List ℚ) × List (List ℚ) :=
  let S := (ids.headD []).length
  let R := (resp.headD []).length
  if cfg.use_remove_padding then
    ((padInput 0 mask (packedEntFlat model entOf cfg mask ids pos τ)).map (sliceResp S R),
     (padInput 0 mask (packedLpFlat model lpOf cfg mask ids pos τ)).map (sliceResp S R))
  else
    let sliced := (denseScaledLogits model ids pos mask τ).map (sliceResp S R)
    (sliced.map (List.map entOf),
     List.zipWith (fun rv rt => List.zipWith lpOf rv rt) sliced resp)

/-- `_forward_micro_batch_2`: like `forward_micro_batch` but additionally
returning the full per-token logits over the response span.  In the packed
path with sequence parallelism enabled the source executes `assert False`
right after gathering, modelled as `none`. -/
def forward_micro_batch_2 (model : ModelInput → List (List (List ℚ)))
    (lpOf : List ℚ → Nat → ℚ) (entOf : List ℚ → ℚ) (cfg : FwdCfg)
    (ids pos : List (List Nat)) (mask : List (List Bool)) (resp : List (List Nat))
    (τ : ℚ) : Option (List (List ℚ) × List (List ℚ) × List (List (List ℚ))) :=
  let S := (ids.headD []).length
  let R := (resp.headD []).length
  if cfg.use_remove_padding then
    if 1 < cfg.sp_size then none
    else
      some ((padInput 0 mask (packedEntFlat model entOf cfg mask ids pos τ)).map (sliceResp S R),
            (padInput 0 mask (packedLpFlat model lpOf cfg mask ids pos τ)).map (sliceResp S R),
            (padInput ([] : List ℚ) mask (packedScaled model cfg mask ids pos τ)).map
              (sliceResp S R))
  else
    let sliced := (denseScaledLogits model ids pos mask τ).map (sliceResp S R)
    some (sliced.map (List.map entOf),
          List.zipWith (fun rv rt => List.zipWith lpOf rv rt) sliced resp,
          sliced)

/-- One example of a `compute_all_logits` batch: its padded token row,
position row, attention-mask row and response row. -/
structure Ex4 where
  ids : List Nat
  pos : List Nat
  msk : List Bool
  resp : List Nat
deriving DecidableEq

/-- Default `Ex4` (out-of-range fallback for the planner). -/
def ex4D : Ex4 := ⟨[], [], [], []⟩

/-- `compute_all_logits`: split into micro-batches (dynamic planner or fixed
chunks), run `forward_micro_batch_2` on each, concatenate the full logits
and, under dynamic batching, check the index count and reindex by the
reverse permutation. -/
def compute_all_logits (model : ModelInput → List (List (List ℚ)))
    (lpOf : List ℚ → Nat → ℚ) (entOf : List ℚ → ℚ) (cfg : FwdCfg) (use_dyn : Bool)
    (msize budget : Nat) (τ : ℚ) (batch : List Ex4) : Option (List (List (List ℚ))) :=
  let mbs :=
    if use_dyn then (rearrange_micro_batches batch (fun e => cntT e.msk) budget ex4D).1
    else splitChunks msize batch
  match mapOpt mbs (fun mb =>
      (forward_micro_batch_2 model lpOf entOf cfg (mb.map Ex4.ids) (mb.map Ex4.pos)
        (mb.map Ex4.msk) (mb.map Ex4.resp) τ).map (fun o => o.2.2)) with
  | none => none
  | some outs =>
    let conc := outs.flatten
    if use_dyn then
      let indices := (rearrange_micro_batches batch (fun e => cntT e.msk) budget ex4D).2.flatten
      if indices.length = conc.length then
        some ((get_reverse_idx indices).map (fun p => conc.getD p []))
      else none
    else some conc

/-! ### Batch-key selection of `update_policy` (normal mode) -/

/-- A named 2-d tensor batch (`data.batch` of a `DataProto`). -/
abbrev BatchT := List (String × List (List ℚ))

/-- Tensor lookup by key. -/
def lookupT : BatchT → String → Option (List (List ℚ))
  | [], _ => none
  | p :: rest, k => if p.1 = k then some p.2 else lookupT rest k

/-- The keys `update_policy` selects in normal mode, before the
`response_mask_prob`-guarded addition of `response_mask_pr`. -/
def baseKeys (cfg : UPConfig) : List String :=
  let ks := ["responses", "input_ids", "attention_mask", "position_ids",
             "old_log_probs", "advantages"]
  let ks := if cfg.use_kl_loss then ks ++ ["ref_log_prob"] else ks
  if cfg.use_sft_loss && cfg.sft_multi_task then
    ks ++ ["ground_truth_mask_pr", "old_log_probs_pr"]
  else ks

/-- The full selected-key list of normal mode: `response_mask_pr` is added
exactly when the input batch contains a key named `response_mask_prob`. -/
def selectKeysNormal (cfg : UPConfig) (b : BatchT) : List String :=
  if (lookupT b "response_mask_prob").isSome then baseKeys cfg ++ ["response_mask_pr"]
  else baseKeys cfg

/-- Modelled from the spec: `DataProto.select` (not part of the packaged
source) restricts the batch to the requested keys and fails — raises — if
any requested key is absent. -/
def dpSelect (b : BatchT) : List String → Option BatchT
  | [] => some []
  | k :: ks =>
    match lookupT b k, dpSelect b ks with
    | some t, some rest => some ((k, t) :: rest)
    | _, _ => none

/-- The response mask the loss is computed with (source lines 508-512): the
`response_mask_pr` override when that key is present in the working batch,
otherwise the last `R` columns of the attention mask. -/
def responseMaskUsed (mb : BatchT) (R : Nat) : List (List ℚ) :=
  match lookupT mb "response_mask_pr" with
  | some t => t
  | none => ((lookupT mb "attention_mask").getD []).map (fun row => row.drop (row.length - R))

/-! ### Derived observations and concrete instances -/

/-- The gradient accumulated by one mini-batch's micro-batch loop, starting
from the zeroed gradient. -/
def miniGradSum (cfg : UPConfig) (core : List Ex → CoreOut) (gradOf : ℚ → ℚ) (mode : Mode)
    (mini : List Ex) : ℚ :=
  ((microSplit cfg mini).map (fun mb => gradOf (microScaledLoss cfg core mode mb))).sum

/-- A trivial optimizer whose clipping always reports a finite norm. -/
def optU : Opt Unit := ⟨fun g => (fv g, g), fun p _ => p⟩

/-- A trivial optimizer whose clipping always reports a non-finite norm. -/
def optN : Opt Unit := ⟨fun g => (⟨g, false⟩, g), fun p _ => p⟩

/-- Concrete configuration: fixed batching, mini-batch size 2, micro-batch
size 1, all optional loss terms disabled. -/
def cfgC5 : UPConfig := ⟨false, 2, 1, 0, 1, 0, false, 0, false, false, 0⟩

/-- Concrete loss collaborator with constant outputs. -/
def coreC5 : List Ex → CoreOut := fun _ => ⟨1, 0, 0, 0, 0⟩

/-- Two one-token examples. -/
def batchC5 : List Ex := [⟨1, [], []⟩, ⟨1, [], []⟩]

/-- Concrete configuration with dynamic batching enabled, mini-batch size 2,
token budget 10, all optional loss terms disabled. -/
def cfgC4 : UPConfig := ⟨true, 2, 1, 10, 1, 0, false, 0, false, false, 0⟩

/-- A single one-token example: one mini-batch holding one 1-example
micro-batch under the dynamic planner. -/
def batchC4 : List Ex := [⟨1, [], []⟩]

/-- Concrete configuration with the multi-task auxiliary loss enabled. -/
def cfgC6 : UPConfig := ⟨false, 1, 1, 0, 1, 0, false, 0, true, true, 1⟩

/-- A micro-batch exhibiting a ground-truth-masked example whose masked
log-probability sum is exactly zero next to one with a nonzero sum. -/
def mbC6 : List Ex := [⟨1, [1], [0]⟩, ⟨1, [1], [-1]⟩]

/-- Concrete model forward with three positions and a one-entry vocabulary. -/
def modelW : ModelInput → List (List (List ℚ)) := fun _ => [[[1], [2], [3]]]

/-- Concrete log-softmax gather stub. -/
def lpW : List ℚ → Nat → ℚ := fun r l => r.headD 0 + (l : ℚ)

/-- Concrete entropy kernel stub. -/
def entW : List ℚ → ℚ := fun r => r.sum

/-- Packed forward configuration at sequence-parallel width 1. -/
def cfgP : FwdCfg := ⟨true, 1⟩

/-- Packed forward configuration at sequence-parallel width 2. -/
def cfgSp : FwdCfg := ⟨true, 2⟩

/-- Dense forward configuration. -/
def cfgD : FwdCfg := ⟨false, 1⟩

/-- Concrete one-example micro-batch tensors (`S = 3`, `R = 1`). -/
def idsW : List (List Nat) := [[5, 6, 7]]

/-- Position ids of the concrete micro-batch. -/
def posW : List (List Nat) := [[0, 1, 2]]

/-- Attention mask of the concrete micro-batch. -/
def maskW : List (List Bool) := [[true, true, true]]

/-- Responses of the concrete micro-batch. -/
def respW : List (List Nat) := [[7]]

/-- A one-example `compute_all_logits` batch. -/
def batchC8 : List Ex4 := [⟨[5], [0], [true], [5]⟩]

/-- A batch carrying `response_mask_pr` but not `response_mask_prob`,
together with every key normal mode selects when all optional losses are
disabled. -/
def bC9a : BatchT :=
  [("responses", []), ("input_ids", []), ("attention_mask", [[1, 1]]),
   ("position_ids", []), ("old_log_probs", []), ("advantages", []),
   ("response_mask_pr", [[0, 0]])]

/-- A batch carrying `response_mask_prob` but not `response_mask_pr`. -/
def bC9b : BatchT := [("response_mask_prob", [[1]])]

/-! ### Generic list lemmas -/

theorem getD_append_left (l₁ l₂ : List α) (k : Nat) (d : α) (h : k < l₁.length) :
    (l₁ ++ l₂).getD k d = l₁.getD k d := by
  induction l₁ generalizing k with
  | nil => simp at h
  | cons x xs ih =>
    cases k with
    | zero => rfl
    | succ n => simpa using ih n (by simpa using h)

theorem getD_append_right (l₁ l₂ : List α) (k : Nat) (d : α) :
    (l₁ ++ l₂).getD (l₁.length + k) d = l₂.getD k d := by
  induction l₁ with
  | nil => simp
  | cons x xs ih => simpa [Nat.succ_add] using ih

theorem getD_map_lt (f : α → β) (l : List α) (k : Nat) (d : β) (d' : α) (h : k < l.length) :
    (l.map f).getD k d = f (l.getD k d') := by
  induction l generalizing k with
  | nil => simp at h
  | cons x xs ih =>
    cases k with
    | zero => rfl
    | succ n => simpa using ih n (by simpa using h)

theorem getD_take_lt (l : List α) (n k : Nat) (d : α) (h : k < n) :
    (l.take n).getD k d = l.getD k d := by
  induction l generalizing n k with
  | nil => simp
  | cons x xs ih =>
    cases n with
    | zero => omega
    | succ m =>
      cases k with
      | zero => rfl
      | succ j => simpa using ih m j (by omega)

theorem getD_drop (l : List α) (n k : Nat) (d : α) :
    (l.drop n).getD k d = l.getD (n + k) d := by
  induction n generalizing l with
  | zero => simp
  | succ m ih =>
    cases l with
    | nil => simp
    | cons x xs => simp [Nat.succ_add, ih xs]

theorem getD_zipWith (f : α → β → γ) (a : List α) (b : List β) (k : Nat)
    (dc : γ) (da : α) (db : β) (h1 : k < a.length) (h2 : k < b.length) :
    (List.zipWith f a b).getD k dc = f (a.getD k da) (b.getD k db) := by
  induction a generalizing b k with
  | nil => simp at h1
  | cons x xs ih =>
    cases b with
    | nil => simp at h2
    | cons y ys =>
      cases k with
      | zero => rfl
      | succ n => simpa using ih ys n (by simpa using h1) (by simpa using h2)

theorem splitChunksF_flatten (fuel n : Nat) (l : List α) (h : l.length ≤ fuel) :
    (splitChunksF fuel n l).flatten = l := by
  induction fuel generalizing l with
  | zero =>
    have : l = [] := List.length_eq_zero.mp (Nat.le_zero.mp h)
    simp [this, splitChunksF]
  | succ m ih =>
    cases l with
    | nil => simp [splitChunksF]
    | cons x xs =>
      have hx : (xs.drop (n - 1)).length ≤ m := by
        simp only [List.length_drop]
        have := List.length_cons x xs ▸ h
        omega
      simp [splitChunksF, ih _ hx, List.take_append_drop]

theorem splitChunks_flatten (n : Nat) (l : List α) : (splitChunks n l).flatten = l :=
  splitChunksF_flatten l.length n l (Nat.le_refl _)

/-! ### The planner permutation (claim C1) -/

theorem insDesc_perm (f : α → Nat) (x : α) (l : List α) : (insDesc f x l).Perm (x :: l) := by
  induction l with
  | nil => simp [insDesc]
  | cons y rest ih =>
    by_cases h : f y ≤ f x
    · simp [insDesc, h]
    · simpa [insDesc, h] using (ih.cons y).trans (List.Perm.swap x y rest)

theorem sortDesc_perm (f : α → Nat) (l : List α) : (sortDesc f l).Perm l := by
  induction l with
  | nil => simp [sortDesc]
  | cons x rest ih => exact (insDesc_perm f x (sortDesc f rest)).trans (ih.cons x)

theorem groupGreedyAux_flatten (budget : Nat) (f : α → Nat) :
    ∀ (rest cur : List α) (s : Nat),
      (groupGreedyAux budget f rest cur s).flatten = cur.reverse ++ rest := by
  intro rest
  induction rest with
  | nil =>
    intro cur s
    by_cases h : cur.isEmpty
    · have : cur = [] := by cases cur <;> simp_all
      simp [groupGreedyAux, h, this]
    · simp [groupGreedyAux, h]
  | cons x rest ih =>
    intro cur s
    by_cases h : cur.isEmpty = true ∨ s + f x ≤ budget
    · rw [groupGreedyAux, if_pos h, ih]
      simp
    · rw [groupGreedyAux, if_neg h]
      simp [ih]

theorem idxOfN_lt_length (l : List Nat) (p : Nat) (h : p ∈ l) : idxOfN l p < l.length := by
  induction l with
  | nil => simp at h
  | cons q rest ih =>
    by_cases hq : q = p
    · simp [idxOfN, hq]
    · have hp : p ∈ rest := by
        rcases List.mem_cons.mp h with h' | h'
        · exact absurd h'.symm hq
        · exact h'
      simpa [idxOfN, hq] using ih hp

theorem getD_idxOfN (l : List Nat) (p : Nat) (h : p ∈ l) : l.getD (idxOfN l p) 0 = p := by
  induction l with
  | nil => simp at h
  | cons q rest ih =>
    by_cases hq : q = p
    · simp [idxOfN, hq]
    · have hp : p ∈ rest := by
        rcases List.mem_cons.mp h with h' | h'
        · exact absurd h'.symm hq
        · exact h'
      simpa [idxOfN, hq] using ih hp

theorem rearrange_flatten_eq (batch : List α) (len : α → Nat) (budget : Nat) (d : α) :
    (rearrange_micro_batches batch len budget d).2.flatten =
      sortDesc (fun i => len (batch.getD i d)) (List.range batch.length) := by
  simpa [rearrange_micro_batches] using
    groupGreedyAux_flatten budget (fun i => len (batch.getD i d))
      (sortDesc (fun i => len (batch.getD i d)) (List.range batch.length)) [] 0

theorem rearrange_flatten_perm (batch : List α) (len : α → Nat) (budget : Nat) (d : α) :
    ((rearrange_micro_batches batch len budget d).2.flatten).Perm
      (List.range batch.length) := by
  rw [rearrange_flatten_eq]
  exact sortDesc_perm _ _

/-- C1: in the dynamic micro-batching path of `compute_log_prob` (and of
`compute_all_logits`), the flattened index lists of the planner form a
bijection over the `N` examples (they are a permutation of `0..N-1`), the
index-count assertion passes, and reindexing the concatenated per-micro-batch
results by the reverse permutation restores original example order: the
returned row `p` is the forward result of original example `p`. -/
theorem C1_dynamic_reindex_roundtrip (f : α → β) (len : α → Nat) (budget : Nat)
    (d : α) (dβ : β) (batch : List α) :
    ((rearrange_micro_batches batch len budget d).2.flatten).Perm
        (List.range batch.length) ∧
      compute_log_prob_dyn f len budget d dβ batch = some (batch.map f) := by
  refine ⟨rearrange_flatten_perm batch len budget d, ?_⟩
  have hperm := rearrange_flatten_perm batch len budget d
  set flat := (rearrange_micro_batches batch len budget d).2.flatten with hflatdef
  have hlen : flat.length = batch.length := by
    simpa using hperm.length_eq
  have hconc :
      ((rearrange_micro_batches batch len budget d).1.map (fun mb => mb.map f)).flatten =
        flat.map (fun i => f (batch.getD i d)) := by
    simp only [rearrange_micro_batches, hflatdef]
    simp [List.map_flatten, List.map_map, Function.comp_def]
  simp only [compute_log_prob_dyn, hconc, ← hflatdef]
  rw [if_pos (by simp)]
  refine congrArg some ?_
  simp only [get_reverse_idx, List.map_map]
  apply List.ext_getElem
  · simpa using hlen
  intro t h₁ h₂
  have htN : t < batch.length := by simpa [hlen] using h₁
  have htflat : t ∈ flat := hperm.mem_iff.mpr (List.mem_range.mpr htN)
  have hidx : idxOfN flat t < flat.length := idxOfN_lt_length flat t htflat
  simp only [List.getElem_map, Function.comp, List.getElem_range]
  rw [getD_map_lt (fun i => f (batch.getD i d)) flat _ _ 0 hidx,
    getD_idxOfN flat t htflat, List.getD_eq_getElem batch d htN]

/-! ### Metrics dictionary lemmas -/

theorem lookupM_setEntry_self (m : Metrics) (k : String) (v : MVal) :
    lookupM (setEntry m k v) k = some v := by
  induction m with
  | nil => simp [setEntry, lookupM]
  | cons p rest ih =>
    by_cases h : p.1 = k
    · simp [setEntry, h, lookupM]
    · simp [setEntry, h, lookupM, ih]

theorem lookupM_setEntry_other (m : Metrics) (k k' : String) (v : MVal) (h : k' ≠ k) :
    lookupM (setEntry m k v) k' = lookupM m k' := by
  have hk : ¬k = k' := fun hh => h hh.symm
  induction m with
  | nil => simp [setEntry, lookupM, hk]
  | cons p rest ih =>
    by_cases hp : p.1 = k
    · simp [setEntry, hp, lookupM, hk]
    · simp [setEntry, hp, lookupM, ih]

theorem lookupSeq_appendKey_self (m : Metrics) (k : String) (v : FVal) :
    lookupSeq (appendKey m k v) k = lookupSeq m k ++ [v] := by
  simp [appendKey, lookupSeq, lookupM_setEntry_self]

theorem lookupSeq_appendKey_other (m : Metrics) (k k' : String) (v : FVal) (h : k' ≠ k) :
    lookupSeq (appendKey m k v) k' = lookupSeq m k' := by
  simp [appendKey, lookupSeq, lookupM_setEntry_other m k k' _ h]

theorem lookupSeq_setKey_other (m : Metrics) (k k' : String) (q : ℚ) (h : k' ≠ k) :
    lookupSeq (setKey m k q) k' = lookupSeq m k' := by
  simp [setKey, lookupSeq, lookupM_setEntry_other m k k' _ h]

/-! ### Micro-batch step lemmas -/

theorem processMicro_grads (cfg : UPConfig) (core : List Ex → CoreOut) (gradOf : ℚ → ℚ)
    (mode : Mode) (st : ℚ × List ℚ × Metrics) (mb : List Ex) :
    (processMicro cfg core gradOf mode st mb).1 =
      st.1 + gradOf (microScaledLoss cfg core mode mb) := by
  cases mode with
  | normal =>
    by_cases h1 : cfg.use_kl_loss <;> by_cases h2 : cfg.use_sft_loss && cfg.sft_multi_task <;>
      by_cases h3 : cfg.use_dynamic_bsz <;>
        simp [processMicro, microScaledLoss, microPolicyLoss, h1, h2, h3]
  | sft_only =>
    by_cases h3 : cfg.use_dynamic_bsz <;>
      simp [processMicro, microScaledLoss, microPolicyLoss, h3]

theorem processMicro_bw (cfg : UPConfig) (core : List Ex → CoreOut) (gradOf : ℚ → ℚ)
    (mode : Mode) (st : ℚ × List ℚ × Metrics) (mb : List Ex) :
    (processMicro cfg core gradOf mode st mb).2.1 =
      st.2.1 ++ [microScaledLoss cfg core mode mb] := by
  cases mode with
  | normal =>
    by_cases h1 : cfg.use_kl_loss <;> by_cases h2 : cfg.use_sft_loss && cfg.sft_multi_task <;>
      by_cases h3 : cfg.use_dynamic_bsz <;>
        simp [processMicro, microScaledLoss, microPolicyLoss, h1, h2, h3]
  | sft_only =>
    by_cases h3 : cfg.use_dynamic_bsz <;>
      simp [processMicro, microScaledLoss, microPolicyLoss, h3]

theorem processMicro_lookupSeq_other (cfg : UPConfig) (core : List Ex → CoreOut)
    (gradOf : ℚ → ℚ) (mode : Mode) (st : ℚ × List ℚ × Metrics) (mb : List Ex) (k : String)
    (h1 : k ≠ "actor/entropy_loss") (h2 : k ≠ "actor/pg_loss")
    (h3 : k ≠ "actor/pg_clipfrac") (h4 : k ≠ "actor/ppo_kl")
    (h5 : k ≠ "actor/kl_loss") (h6 : k ≠ "actor/kl_coef")
    (h7 : k ≠ "actor/sft_loss") (h8 : k ≠ "actor/sft_coef") :
    lookupSeq (processMicro cfg core gradOf mode st mb).2.2 k = lookupSeq st.2.2 k := by
  cases mode with
  | normal =>
    by_cases hb1 : cfg.use_kl_loss <;> by_cases hb2 : cfg.use_sft_loss && cfg.sft_multi_task <;>
      simp [processMicro, hb1, hb2, lookupSeq_appendKey_other _ _ _ _ h1,
        lookupSeq_appendKey_other _ _ _ _ h2, lookupSeq_appendKey_other _ _ _ _ h3,
        lookupSeq_appendKey_other _ _ _ _ h4, lookupSeq_setKey_other _ _ _ _ h5,
        lookupSeq_setKey_other _ _ _ _ h6, lookupSeq_setKey_other _ _ _ _ h7,
        lookupSeq_setKey_other _ _ _ _ h8]
  | sft_only =>
    simp [processMicro, lookupSeq_setKey_other _ _ _ _ h7, lookupSeq_setKey_other _ _ _ _ h8]

theorem processMicro_lookupSeq_gradKey (cfg : UPConfig) (core : List Ex → CoreOut)
    (gradOf : ℚ → ℚ) (mode : Mode) (st : ℚ × List ℚ × Metrics) (mb : List Ex) :
    lookupSeq (processMicro cfg core gradOf mode st mb).2.2 (gradKey mode) =
      lookupSeq st.2.2 (gradKey mode) := by
  cases mode <;>
    exact processMicro_lookupSeq_other cfg core gradOf _ st mb _
      (by decide) (by decide) (by decide) (by decide)
      (by decide) (by decide) (by decide) (by decide)

theorem processMicro_lookupSeq_entropy (cfg : UPConfig) (core : List Ex → CoreOut)
    (gradOf : ℚ → ℚ) (st : ℚ × List ℚ × Metrics) (mb : List Ex) :
    lookupSeq (processMicro cfg core gradOf Mode.normal st mb).2.2 "actor/entropy_loss" =
      lookupSeq st.2.2 "actor/entropy_loss" ++ [fv (core mb).entropy_loss] := by
  by_cases hb1 : cfg.use_kl_loss <;> by_cases hb2 : cfg.use_sft_loss && cfg.sft_multi_task <;>
    simp [processMicro, hb1, hb2, lookupSeq_appendKey_self,
      lookupSeq_appendKey_other _ _ _ _ (by decide : ("actor/entropy_loss" : String) ≠ "actor/pg_loss"),
      lookupSeq_appendKey_other _ _ _ _ (by decide : ("actor/entropy_loss" : String) ≠ "actor/pg_clipfrac"),
      lookupSeq_appendKey_other _ _ _ _ (by decide : ("actor/entropy_loss" : String) ≠ "actor/ppo_kl"),
      lookupSeq_setKey_other _ _ _ _ (by decide : ("actor/entropy_loss" : String) ≠ "actor/kl_loss"),
      lookupSeq_setKey_other _ _ _ _ (by decide : ("actor/entropy_loss" : String) ≠ "actor/kl_coef"),
      lookupSeq_setKey_other _ _ _ _ (by decide : ("actor/entropy_loss" : String) ≠ "actor/sft_loss"),
      lookupSeq_setKey_other _ _ _ _ (by decide : ("actor/entropy_loss" : String) ≠ "actor/sft_coef")]

theorem processMicro_lookupSeq_pg (cfg : UPConfig) (core : List Ex → CoreOut)
    (gradOf : ℚ → ℚ) (st : ℚ × List ℚ × Metrics) (mb : List Ex) :
    lookupSeq (processMicro cfg core gradOf Mode.normal st mb).2.2 "actor/pg_loss" =
      lookupSeq st.2.2 "actor/pg_loss" ++ [fv (core mb).pg_loss] := by
  by_cases hb1 : cfg.use_kl_loss <;> by_cases hb2 : cfg.use_sft_loss && cfg.sft_multi_task <;>
    simp [processMicro, hb1, hb2, lookupSeq_appendKey_self,
      lookupSeq_appendKey_other _ _ _ _ (by decide : ("actor/pg_loss" : String) ≠ "actor/entropy_loss"),
      lookupSeq_appendKey_other _ _ _ _ (by decide : ("actor/pg_loss" : String) ≠ "actor/pg_clipfrac"),
      lookupSeq_appendKey_other _ _ _ _ (by decide : ("actor/pg_loss" : String) ≠ "actor/ppo_kl"),
      lookupSeq_setKey_other _ _ _ _ (by decide : ("actor/pg_loss" : String) ≠ "actor/kl_loss"),
      lookupSeq_setKey_other _ _ _ _ (by decide : ("actor/pg_loss" : String) ≠ "actor/kl_coef"),
      lookupSeq_setKey_other _ _ _ _ (by decide : ("actor/pg_loss" : String) ≠ "actor/sft_loss"),
      lookupSeq_setKey_other _ _ _ _ (by decide : ("actor/pg_loss" : String) ≠ "actor/sft_coef")]

theorem processMicro_lookupSeq_clipfrac (cfg : UPConfig) (core : List Ex → CoreOut)
    (gradOf : ℚ → ℚ) (st : ℚ × List ℚ × Metrics) (mb : List Ex) :
    lookupSeq (processMicro cfg core gradOf Mode.normal st mb).2.2 "actor/pg_clipfrac" =
      lookupSeq st.2.2 "actor/pg_clipfrac" ++ [fv (core mb).pg_clipfrac] := by
  by_cases hb1 : cfg.use_kl_loss <;> by_cases hb2 : cfg.use_sft_loss && cfg.sft_multi_task <;>
    simp [processMicro, hb1, hb2, lookupSeq_appendKey_self,
      lookupSeq_appendKey_other _ _ _ _ (by decide : ("actor/pg_clipfrac" : String) ≠ "actor/entropy_loss"),
      lookupSeq_appendKey_other _ _ _ _ (by decide : ("actor/pg_clipfrac" : String) ≠ "actor/pg_loss"),
      lookupSeq_appendKey_other _ _ _ _ (by decide : ("actor/pg_clipfrac" : String) ≠ "actor/ppo_kl"),
      lookupSeq_setKey_other _ _ _ _ (by decide : ("actor/pg_clipfrac" : String) ≠ "actor/kl_loss"),
      lookupSeq_setKey_other _ _ _ _ (by decide : ("actor/pg_clipfrac" : String) ≠ "actor/kl_coef"),
      lookupSeq_setKey_other _ _ _ _ (by decide : ("actor/pg_clipfrac" : String) ≠ "actor/sft_loss"),
      lookupSeq_setKey_other _ _ _ _ (by decide : ("actor/pg_clipfrac" : String) ≠ "actor/sft_coef")]

theorem processMicro_lookupSeq_ppokl (cfg : UPConfig) (core : List Ex → CoreOut)
    (gradOf : ℚ → ℚ) (st : ℚ × List ℚ × Metrics) (mb : List Ex) :
    lookupSeq (processMicro cfg core gradOf Mode.normal st mb).2.2 "actor/ppo_kl" =
      lookupSeq st.2.2 "actor/ppo_kl" ++ [fv (core mb).ppo_kl] := by
  by_cases hb1 : cfg.use_kl_loss <;> by_cases hb2 : cfg.use_sft_loss && cfg.sft_multi_task <;>
    simp [processMicro, hb1, hb2, lookupSeq_appendKey_self,
      lookupSeq_appendKey_other _ _ _ _ (by decide : ("actor/ppo_kl" : String) ≠ "actor/entropy_loss"),
      lookupSeq_appendKey_other _ _ _ _ (by decide : ("actor/ppo_kl" : String) ≠ "actor/pg_loss"),
      lookupSeq_appendKey_other _ _ _ _ (by decide : ("actor/ppo_kl" : String) ≠ "actor/pg_clipfrac"),
      lookupSeq_setKey_other _ _ _ _ (by decide : ("actor/ppo_kl" : String) ≠ "actor/kl_loss"),
      lookupSeq_setKey_other _ _ _ _ (by decide : ("actor/ppo_kl" : String) ≠ "actor/kl_coef"),
      lookupSeq_setKey_other _ _ _ _ (by decide : ("actor/ppo_kl" : String) ≠ "actor/sft_loss"),
      lookupSeq_setKey_other _ _ _ _ (by decide : ("actor/ppo_kl" : String) ≠ "actor/sft_coef")]

/-! ### Micro-batch loop lemmas -/

theorem foldMicro_grads (cfg : UPConfig) (core : List Ex → CoreOut) (gradOf : ℚ → ℚ)
    (mode : Mode) (mbs : List (List Ex)) :
    ∀ st : ℚ × List ℚ × Metrics,
      (mbs.foldl (processMicro cfg core gradOf mode) st).1 =
        st.1 + (mbs.map (fun mb => gradOf (microScaledLoss cfg core mode mb))).sum := by
  induction mbs with
  | nil => intro st; simp
  | cons mb rest ih =>
    intro st
    rw [List.foldl_cons, ih]
    simp [processMicro_grads, add_assoc]

theorem foldMicro_bw (cfg : UPConfig) (core : List Ex → CoreOut) (gradOf : ℚ → ℚ)
    (mode : Mode) (mbs : List (List Ex)) :
    ∀ st : ℚ × List ℚ × Metrics,
      (mbs.foldl (processMicro cfg core gradOf mode) st).2.1 =
        st.2.1 ++ mbs.map (microScaledLoss cfg core mode) := by
  induction mbs with
  | nil => intro st; simp
  | cons mb rest ih =>
    intro st
    rw [List.foldl_cons, ih]
    simp [processMicro_bw]

theorem foldMicro_lookupSeq_gradKey (cfg : UPConfig) (core : List Ex → CoreOut)
    (gradOf : ℚ → ℚ) (mode : Mode) (mbs : List (List Ex)) :
    ∀ st : ℚ × List ℚ × Metrics,
      lookupSeq (mbs.foldl (processMicro cfg core gradOf mode) st).2.2 (gradKey mode) =
        lookupSeq st.2.2 (gradKey mode) := by
  induction mbs with
  | nil => intro st; simp
  | cons mb rest ih =>
    intro st
    rw [List.foldl_cons, ih, processMicro_lookupSeq_gradKey]

theorem foldMicro_lookupSeq_val (cfg : UPConfig) (core : List Ex → CoreOut)
    (gradOf : ℚ → ℚ) (key : String) (val : List Ex → ℚ)
    (hmicro : ∀ (st : ℚ × List ℚ × Metrics) (mb : List Ex),
      lookupSeq (processMicro cfg core gradOf Mode.normal st mb).2.2 key =
        lookupSeq st.2.2 key ++ [fv (val mb)])
    (mbs : List (List Ex)) :
    ∀ st : ℚ × List ℚ × Metrics,
      lookupSeq (mbs.foldl (processMicro cfg core gradOf Mode.normal) st).2.2 key =
        lookupSeq st.2.2 key ++ mbs.map (fun mb => fv (val mb)) := by
  induction mbs with
  | nil => intro st; simp
  | cons mb rest ih =>
    intro st
    rw [List.foldl_cons, ih, hmicro]
    simp

/-! ### Optimizer step and mini-batch loop lemmas -/

theorem optimizer_step_norm (opt : Opt P) (params : P) (grads : ℚ) :
    (optimizer_step opt params grads).1 = (opt.clip grads).1 := by
  by_cases h : (opt.clip grads).1.finite <;> simp [optimizer_step, h]

theorem processMini_params (cfg : UPConfig) (core : List Ex → CoreOut) (gradOf : ℚ → ℚ)
    (mode : Mode) (opt : Opt P) (st : P × ℚ × List ℚ × Metrics) (mini : List Ex) :
    (processMini cfg core gradOf mode opt st mini).1 =
      (optimizer_step opt st.1 (miniGradSum cfg core gradOf mode mini)).2.1 := by
  simp [processMini, foldMicro_grads, miniGradSum]

theorem processMini_grads (cfg : UPConfig) (core : List Ex → CoreOut) (gradOf : ℚ → ℚ)
    (mode : Mode) (opt : Opt P) (st : P × ℚ × List ℚ × Metrics) (mini : List Ex) :
    (processMini cfg core gradOf mode opt st mini).2.1 =
      (optimizer_step opt st.1 (miniGradSum cfg core gradOf mode mini)).2.2 := by
  simp [processMini, foldMicro_grads, miniGradSum]

theorem processMini_bw (cfg : UPConfig) (core : List Ex → CoreOut) (gradOf : ℚ → ℚ)
    (mode : Mode) (opt : Opt P) (st : P × ℚ × List ℚ × Metrics) (mini : List Ex) :
    (processMini cfg core gradOf mode opt st mini).2.2.1 =
      st.2.2.1 ++ (microSplit cfg mini).map (microScaledLoss cfg core mode) := by
  simp [processMini, foldMicro_bw]

theorem processMini_lookupSeq_gradKey (cfg : UPConfig) (core : List Ex → CoreOut)
    (gradOf : ℚ → ℚ) (mode : Mode) (opt : Opt P) (st : P × ℚ × List ℚ × Metrics)
    (mini : List Ex) :
    lookupSeq (processMini cfg core gradOf mode opt st mini).2.2.2 (gradKey mode) =
      lookupSeq st.2.2.2 (gradKey mode) ++
        [(opt.clip (miniGradSum cfg core gradOf mode mini)).1] := by
  simp [processMini, lookupSeq_appendKey_self, foldMicro_lookupSeq_gradKey,
    optimizer_step_norm, foldMicro_grads, miniGradSum]

theorem processMini_lookupSeq_val (cfg : UPConfig) (core : List Ex → CoreOut)
    (gradOf : ℚ → ℚ) (opt : Opt P) (key : String) (val : List Ex → ℚ)
    (hkey : key ≠ gradKey Mode.normal)
    (hmicro : ∀ (st : ℚ × List ℚ × Metrics) (mb : List Ex),
      lookupSeq (processMicro cfg core gradOf Mode.normal st mb).2.2 key =
        lookupSeq st.2.2 key ++ [fv (val mb)])
    (st : P × ℚ × List ℚ × Metrics) (mini : List Ex) :
    lookupSeq (processMini cfg core gradOf Mode.normal opt st mini).2.2.2 key =
      lookupSeq st.2.2.2 key ++
        (microSplit cfg mini).map (fun mb => fv (val mb)) := by
  simp [processMini, lookupSeq_appendKey_other _ _ _ _ hkey,
    foldMicro_lookupSeq_val cfg core gradOf key val hmicro]

theorem foldMini_grads_zero (cfg : UPConfig) (core : List Ex → CoreOut) (gradOf : ℚ → ℚ)
    (mode : Mode) (opt : Opt P) (minis : List (List Ex)) :
    ∀ st : P × ℚ × List ℚ × Metrics,
      lookupSeq (minis.foldl (processMini cfg core gradOf mode opt) st).2.2.2 (gradKey mode) =
        lookupSeq st.2.2.2 (gradKey mode) ++
          minis.map (fun mini => (opt.clip (miniGradSum cfg core gradOf mode mini)).1) := by
  induction minis with
  | nil => intro st; simp
  | cons mini rest ih =>
    intro st
    rw [List.foldl_cons, ih, processMini_lookupSeq_gradKey]
    simp

theorem foldMini_bw (cfg : UPConfig) (core : List Ex → CoreOut) (gradOf : ℚ → ℚ)
    (mode : Mode) (opt : Opt P) (minis : List (List Ex)) :
    ∀ st : P × ℚ × List ℚ × Metrics,
      (minis.foldl (processMini cfg core gradOf mode opt) st).2.2.1 =
        st.2.2.1 ++
          (minis.map (fun mini => (microSplit cfg mini).map (microScaledLoss cfg core mode))).flatten := by
  induction minis with
  | nil => intro st; simp
  | cons mini rest ih =>
    intro st
    rw [List.foldl_cons, ih, processMini_bw]
    simp

theorem foldMini_lookupSeq_val (cfg : UPConfig) (core : List Ex → CoreOut)
    (gradOf : ℚ → ℚ) (opt : Opt P) (key : String) (val : List Ex → ℚ)
    (hkey : key ≠ gradKey Mode.normal)
    (hmicro : ∀ (st : ℚ × List ℚ × Metrics) (mb : List Ex),
      lookupSeq (processMicro cfg core gradOf Mode.normal st mb).2.2 key =
        lookupSeq st.2.2 key ++ [fv (val mb)])
    (minis : List (List Ex)) :
    ∀ st : P × ℚ × List ℚ × Metrics,
      lookupSeq (minis.foldl (processMini cfg core gradOf Mode.normal opt) st).2.2.2 key =
        lookupSeq st.2.2.2 key ++
          (minis.map (fun mini => (microSplit cfg mini).map (fun mb => fv (val mb)))).flatten := by
  induction minis with
  | nil => intro st; simp
  | cons mini rest ih =>
    intro st
    rw [List.foldl_cons, ih, processMini_lookupSeq_val cfg core gradOf opt key val hkey hmicro]
    simp

/-! ### Claims C2, C4, C5, C6 and C10 -/

theorem update_policy_lookupSeq_gradKey (cfg : UPConfig) (core : List Ex → CoreOut)
    (gradOf : ℚ → ℚ) (mode : Mode) (opt : Opt P) (params : P) (g0 : ℚ) (batch : List Ex) :
    lookupSeq (update_policy cfg core gradOf mode opt params g0 batch).2.2.2 (gradKey mode) =
      (splitChunks cfg.ppo_mini_batch_size batch).map
        (fun mini => (opt.clip (miniGradSum cfg core gradOf mode mini)).1) := by
  simp only [update_policy]
  rw [foldMini_grads_zero]
  simp [lookupSeq, lookupM]

/-- C2: after gradient clipping the optimizer step is guarded: when the
returned gradient norm is not finite the parameter update is skipped and the
gradients are zeroed (parameters unchanged), when it is finite the optimizer
step is applied to the clipped gradients; in both cases the norm is returned,
every mini-batch is still processed, and each mini-batch's norm is recorded
in the metrics under the mode's gradient-norm key. -/
theorem C2_optimizer_guard (P : Type) (opt : Opt P) :
    (∀ (params : P) (grads : ℚ), (opt.clip grads).1.finite = false →
        optimizer_step opt params grads = ((opt.clip grads).1, params, 0)) ∧
      (∀ (params : P) (grads : ℚ), (opt.clip grads).1.finite = true →
        optimizer_step opt params grads =
          ((opt.clip grads).1, opt.step params (opt.clip grads).2, (opt.clip grads).2)) ∧
      (∀ (cfg : UPConfig) (core : List Ex → CoreOut) (gradOf : ℚ → ℚ) (mode : Mode)
          (params : P) (g0 : ℚ) (batch : List Ex),
        lookupSeq (update_policy cfg core gradOf mode opt params g0 batch).2.2.2
            (gradKey mode) =
          (splitChunks cfg.ppo_mini_batch_size batch).map
            (fun mini => (opt.clip (miniGradSum cfg core gradOf mode mini)).1)) := by
  refine ⟨?_, ?_, ?_⟩
  · intro params grads h
    simp [optimizer_step, h]
  · intro params grads h
    simp [optimizer_step, h]
  · intro cfg core gradOf mode params g0 batch
    exact update_policy_lookupSeq_gradKey cfg core gradOf mode opt params g0 batch

theorem C2_optimizer_guard_witness :
    (optN.clip 5).1.finite = false ∧
      optimizer_step optN () 5 = ((optN.clip 5).1, (), 0) ∧
      (optU.clip 5).1.finite = true ∧
      optimizer_step optU () 5 =
        ((optU.clip 5).1, optU.step () (optU.clip 5).2, (optU.clip 5).2) :=
  ⟨rfl, (C2_optimizer_guard Unit optN).1 () 5 rfl, rfl,
    (C2_optimizer_guard Unit optU).2.1 () 5 rfl⟩

/-- The backward trace of `update_policy` equals, per micro-batch, the
composite loss under the scaling the source actually performs:
`len(data) / ppo_mini_batch_size` under dynamic batching where, in normal
mode, `data` has been rebound to the 4-entry diagnostics dict, and
`1 / (ppo_mini_batch_size // ppo_micro_batch_size_per_gpu)` under fixed
batching. -/
theorem update_policy_bw_trace (cfg : UPConfig) (core : List Ex → CoreOut)
    (gradOf : ℚ → ℚ) (mode : Mode) (opt : Opt P) (params : P) (g0 : ℚ) (batch : List Ex) :
    (update_policy cfg core gradOf mode opt params g0 batch).2.2.1 =
      ((splitChunks cfg.ppo_mini_batch_size batch).map (fun mini =>
        (microSplit cfg mini).map (microScaledLoss cfg core mode))).flatten := by
  simp only [update_policy]
  rw [foldMini_bw]
  rfl

/-- C4: the fixed-batching half of the claim holds, but the dynamic-batching
half is a code bug: in normal mode the loop variable `data` is rebound to
the 4-entry diagnostics dict (source line 569) before `len(data)` is read
(line 597), so the code scales by `4 / ppo_mini_batch_size` instead of the
claimed micro-batch example count.  Evaluated at the failing input: one
1-example micro-batch under dynamic batching with composite loss 1 and
mini-batch size 2, the loss passed to backward is `1 * (4 / 2) = 2`, not
the claimed `1 * (1 / 2)`. -/
theorem C4_dynamic_scale_code_bug :
    (update_policy cfgC4 coreC5 id Mode.normal optU () 0 batchC4).2.2.1 =
      [microPolicyLoss cfgC4 coreC5 Mode.normal batchC4 *
        ((4 : ℚ) / (cfgC4.ppo_mini_batch_size : ℚ))] ∧
    microPolicyLoss cfgC4 coreC5 Mode.normal batchC4 = 1 ∧
    (update_policy cfgC4 coreC5 id Mode.normal optU () 0 batchC4).2.2.1 ≠
      [microPolicyLoss cfgC4 coreC5 Mode.normal batchC4 *
        ((batchC4.length : ℚ) / (cfgC4.ppo_mini_batch_size : ℚ))] := by
  have hmpl : microPolicyLoss cfgC4 coreC5 Mode.normal batchC4 = 1 := by
    norm_num [microPolicyLoss, cfgC4, coreC5]
  have htr : (update_policy cfgC4 coreC5 id Mode.normal optU () 0 batchC4).2.2.1 =
      [microPolicyLoss cfgC4 coreC5 Mode.normal batchC4 *
        ((4 : ℚ) / (cfgC4.ppo_mini_batch_size : ℚ))] := by
    rw [update_policy_bw_trace]
    simp [splitChunks, splitChunksF, microSplit, cfgC4, batchC4, microScaledLoss,
      rearrange_micro_batches, sortDesc, insDesc, groupGreedyAux, exD]
  refine ⟨htr, hmpl, ?_⟩
  rw [htr, hmpl]
  intro h
  have := List.head_eq_of_cons_eq h
  norm_num [cfgC4, batchC4] at this

/-- C5 counterexample: with fixed batching, mini-batch size 2 and micro-batch
size 1, a single mini-batch appends two values (one per micro-batch) to the
`actor/pg_loss` sequence, so the accumulator does not receive exactly one
value per metric per mini-batch as claimed. -/
theorem C5_metrics_per_minibatch_cex :
    (lookupSeq (update_policy cfgC5 coreC5 id Mode.normal optU () 0 batchC5).2.2.2
        "actor/pg_loss").length ≠
      (splitChunks cfgC5.ppo_mini_batch_size batchC5).length := by
  have h := foldMini_lookupSeq_val cfgC5 coreC5 id optU "actor/pg_loss"
    (fun mb => (coreC5 mb).pg_loss) (by decide)
    (processMicro_lookupSeq_pg cfgC5 coreC5 id)
    (splitChunks cfgC5.ppo_mini_batch_size batchC5) ((), 0, [], [])
  simp only [update_policy]
  rw [h]
  simp [lookupSeq, lookupM, splitChunks, splitChunksF, microSplit, cfgC5, batchC5]

/-- C5 as amended: during one `update_policy` invocation in normal mode, the
four per-micro-batch diagnostics (entropy loss, policy-gradient loss, clip
fraction, KL estimate) are append-only sequences receiving exactly one value
per micro-batch in processing order, and the gradient norm is an append-only
sequence receiving exactly one value per mini-batch. -/
theorem C5_metrics_append_only (cfg : UPConfig) (core : List Ex → CoreOut)
    (gradOf : ℚ → ℚ) (opt : Opt P) (params : P) (g0 : ℚ) (batch : List Ex) :
    lookupSeq (update_policy cfg core gradOf Mode.normal opt params g0 batch).2.2.2
        "actor/entropy_loss" =
      ((splitChunks cfg.ppo_mini_batch_size batch).map (fun mini =>
        (microSplit cfg mini).map (fun mb => fv (core mb).entropy_loss))).flatten ∧
    lookupSeq (update_policy cfg core gradOf Mode.normal opt params g0 batch).2.2.2
        "actor/pg_loss" =
      ((splitChunks cfg.ppo_mini_batch_size batch).map (fun mini =>
        (microSplit cfg mini).map (fun mb => fv (core mb).pg_loss))).flatten ∧
    lookupSeq (update_policy cfg core gradOf Mode.normal opt params g0 batch).2.2.2
        "actor/pg_clipfrac" =
      ((splitChunks cfg.ppo_mini_batch_size batch).map (fun mini =>
        (microSplit cfg mini).map (fun mb => fv (core mb).pg_clipfrac))).flatten ∧
    lookupSeq (update_policy cfg core gradOf Mode.normal opt params g0 batch).2.2.2
        "actor/ppo_kl" =
      ((splitChunks cfg.ppo_mini_batch_size batch).map (fun mini =>
        (microSplit cfg mini).map (fun mb => fv (core mb).ppo_kl))).flatten ∧
    lookupSeq (update_policy cfg core gradOf Mode.normal opt params g0 batch).2.2.2
        "actor/grad_norm" =
      (splitChunks cfg.ppo_mini_batch_size batch).map
        (fun mini => (opt.clip (miniGradSum cfg core gradOf Mode.normal mini)).1) := by
  refine ⟨?_, ?_, ?_, ?_, ?_⟩
  · simp only [update_policy]
    rw [foldMini_lookupSeq_val cfg core gradOf opt "actor/entropy_loss"
      (fun mb => (core mb).entropy_loss) (by decide)
      (processMicro_lookupSeq_entropy cfg core gradOf)]
    simp [lookupSeq, lookupM]
  · simp only [update_policy]
    rw [foldMini_lookupSeq_val cfg core gradOf opt "actor/pg_loss"
      (fun mb => (core mb).pg_loss) (by decide)
      (processMicro_lookupSeq_pg cfg core gradOf)]
    simp [lookupSeq, lookupM]
  · simp only [update_policy]
    rw [foldMini_lookupSeq_val cfg core gradOf opt "actor/pg_clipfrac"
      (fun mb => (core mb).pg_clipfrac) (by decide)
      (processMicro_lookupSeq_clipfrac cfg core gradOf)]
    simp [lookupSeq, lookupM]
  · simp only [update_policy]
    rw [foldMini_lookupSeq_val cfg core gradOf opt "actor/ppo_kl"
      (fun mb => (core mb).ppo_kl) (by decide)
      (processMicro_lookupSeq_ppokl cfg core gradOf)]
    simp [lookupSeq, lookupM]
  · have h := update_policy_lookupSeq_gradKey cfg core gradOf Mode.normal opt params g0 batch
    simpa [gradKey] using h

/-- C6 counterexample: the code divides by `count_nonzero` of the per-example
token means, not by the number of examples with at least one ground-truth
token; they differ when a ground-truth-masked example has masked
log-probability sum exactly zero. -/
theorem C6_sft_denominator_cex : sftLoss mbC6 ≠ specSftClaimed mbC6 := by
  norm_num [sftLoss, specSftClaimed, tokenMeans, countNZ, specMaskedMean, mbC6, epsC,
    List.countP_cons, List.countP_nil, List.filter_cons, List.filter_nil]

/-- C6 as amended: in multi-task mode the auxiliary supervised loss equals
the negative of the sum of per-example epsilon-guarded masked means divided
(epsilon-guarded) by the number of examples whose masked mean is nonzero,
and this value times the SFT coefficient is added to the policy loss. -/
theorem C6_sft_loss_amended (cfg : UPConfig) (core : List Ex → CoreOut) (mb : List Ex)
    (h1 : cfg.use_sft_loss = true) (h2 : cfg.sft_multi_task = true) :
    microPolicyLoss cfg core Mode.normal mb =
      ((core mb).pg_loss - (core mb).entropy_loss * cfg.entropy_coeff +
        (if cfg.use_kl_loss then (core mb).kl_loss * cfg.kl_loss_coef else 0)) +
        specSftAmended mb * cfg.sft_loss_coef := by
  have htm : tokenMeans mb = mb.map specMaskedMean := by
    simp [tokenMeans, specMaskedMean]
  have hs : sftLoss mb = specSftAmended mb := by
    rw [sftLoss, specSftAmended, htm]
    congr 2
    simp [countNZ, List.countP_eq_length_filter, List.filter_map, Function.comp_def]
  by_cases hk : cfg.use_kl_loss <;> simp [microPolicyLoss, h1, h2, hk, hs]

theorem C6_sft_loss_amended_witness :
    cfgC6.use_sft_loss = true ∧ cfgC6.sft_multi_task = true ∧
      microPolicyLoss cfgC6 coreC5 Mode.normal mbC6 =
        ((coreC5 mbC6).pg_loss - (coreC5 mbC6).entropy_loss * cfgC6.entropy_coeff +
          (if cfgC6.use_kl_loss then (coreC5 mbC6).kl_loss * cfgC6.kl_loss_coef else 0)) +
          specSftAmended mbC6 * cfgC6.sft_loss_coef :=
  ⟨rfl, rfl, C6_sft_loss_amended cfgC6 coreC5 mbC6 rfl rfl⟩

/-- C10: the optimizer's gradients are zeroed at the start of every
mini-batch and once more after the last one: the gradient each mini-batch
hands to clipping is accumulated from that mini-batch's micro-batches alone
(starting from zero, with no leakage across mini-batches), and the returned
state holds zero gradients, in both objective modes and regardless of
whether any optimizer step was skipped. -/
theorem C10_zero_grad_invariant (cfg : UPConfig) (core : List Ex → CoreOut)
    (gradOf : ℚ → ℚ) (mode : Mode) (opt : Opt P) (params : P) (g0 : ℚ) (batch : List Ex) :
    (update_policy cfg core gradOf mode opt params g0 batch).2.1 = 0 ∧
      lookupSeq (update_policy cfg core gradOf mode opt params g0 batch).2.2.2
          (gradKey mode) =
        (splitChunks cfg.ppo_mini_batch_size batch).map
          (fun mini => (opt.clip (miniGradSum cfg core gradOf mode mini)).1) := by
  exact ⟨by simp [update_policy],
    update_policy_lookupSeq_gradKey cfg core gradOf mode opt params g0 batch⟩

/-! ### Packing and scattering lemmas -/

theorem valid_row_lt (mask : List (List Bool)) (i c : Nat)
    (hv : (mask.getD i []).getD c false = true) : i < mask.length := by
  by_contra h
  push_neg at h
  rw [List.getD_eq_default _ _ h] at hv
  simp at hv

theorem valid_col_lt (m : List Bool) (c : Nat) (hv : m.getD c false = true) :
    c < m.length := by
  by_contra h
  push_neg at h
  rw [List.getD_eq_default _ _ h] at hv
  simp at hv

theorem selRow_length (m : List Bool) (xs : List α) (h : xs.length = m.length) :
    (selRow m xs).length = cntT m := by
  induction m generalizing xs with
  | nil => simp [selRow, cntT]
  | cons b ms ih =>
    cases xs with
    | nil => simp at h
    | cons x xs' =>
      by_cases hb : b <;>
        simp [selRow, cntT, hb, ih xs' (by simpa using h)]

theorem cntT_take_lt (m : List Bool) (c : Nat) (hv : m.getD c false = true) :
    cntT (m.take c) < cntT m := by
  induction m generalizing c with
  | nil => simp at hv
  | cons b ms ih =>
    cases c with
    | zero =>
      have hb : b = true := by simpa using hv
      simp [hb, cntT]
    | succ c' =>
      have := ih c' (by simpa using hv)
      by_cases hb : b <;> simp [cntT, hb] <;> exact this

theorem cntT_take_succ (m : List Bool) (c : Nat) (hv : m.getD c false = true) :
    cntT (m.take (c + 1)) = cntT (m.take c) + 1 := by
  induction m generalizing c with
  | nil => simp at hv
  | cons b ms ih =>
    cases c with
    | zero =>
      have hb : b = true := by simpa using hv
      simp [hb, cntT]
    | succ c' =>
      have := ih c' (by simpa using hv)
      by_cases hb : b <;> simp [cntT, hb, this]

theorem selRow_getD (m : List Bool) (xs : List α) (c : Nat) (d : α)
    (h : xs.length = m.length) (hv : m.getD c false = true) :
    (selRow m xs).getD (cntT (m.take c)) d = xs.getD c d := by
  induction m generalizing xs c with
  | nil => simp at hv
  | cons b ms ih =>
    cases xs with
    | nil => simp at h
    | cons x xs' =>
      cases c with
      | zero =>
        have hb : b = true := by simpa using hv
        simp [selRow, hb, cntT]
      | succ c' =>
        have hv' : ms.getD c' false = true := by simpa using hv
        have hih := ih xs' c' (by simpa using h) hv'
        by_cases hb : b <;> simpa [selRow, hb, cntT] using hih

theorem packStream_cons (m : List Bool) (ms : List (List Bool)) (y : List α)
    (ys : List (List α)) :
    packStream (m :: ms) (y :: ys) = selRow m y ++ packStream ms ys := by
  simp [packStream]

theorem packStream_length (mask : List (List Bool)) (x : List (List α))
    (hlen : mask.length = x.length)
    (hrows : ∀ t, (x.getD t []).length = (mask.getD t []).length) :
    (packStream mask x).length = totalCnt mask := by
  induction mask generalizing x with
  | nil =>
    cases x with
    | nil => simp [packStream, totalCnt]
    | cons y ys => simp at hlen
  | cons m ms ih =>
    cases x with
    | nil => simp at hlen
    | cons y ys =>
      have h0 : y.length = m.length := by simpa using hrows 0
      have ht : ∀ t, (ys.getD t []).length = (ms.getD t []).length := fun t => by
        simpa using hrows (t + 1)
      simp [packStream_cons, totalCnt, selRow_length m y h0,
        ih ys (by simpa using hlen) ht]

theorem flatIdx_lt_totalCnt (mask : List (List Bool)) (i c : Nat)
    (hv : (mask.getD i []).getD c false = true) :
    flatIdx mask i c < totalCnt mask := by
  induction mask generalizing i with
  | nil => simp at hv
  | cons m ms ih =>
    cases i with
    | zero =>
      have := cntT_take_lt m c (by simpa using hv)
      simp only [flatIdx, totalCnt]
      omega
    | succ i' =>
      have := ih i' (by simpa using hv)
      simp only [flatIdx, totalCnt]
      omega

theorem flatIdx_succ (mask : List (List Bool)) (i c : Nat)
    (hv : (mask.getD i []).getD c false = true) :
    flatIdx mask i (c + 1) = flatIdx mask i c + 1 := by
  induction mask generalizing i with
  | nil => simp at hv
  | cons m ms ih =>
    cases i with
    | zero => simpa [flatIdx] using cntT_take_succ m c (by simpa using hv)
    | succ i' =>
      have := ih i' (by simpa using hv)
      simp only [flatIdx]
      omega

theorem packStream_getD (mask : List (List Bool)) (x : List (List α)) (i c : Nat) (d : α)
    (hlen : mask.length = x.length)
    (hrows : ∀ t, (x.getD t []).length = (mask.getD t []).length)
    (hv : (mask.getD i []).getD c false = true) :
    (packStream mask x).getD (flatIdx mask i c) d = (x.getD i []).getD c d := by
  induction mask generalizing x i with
  | nil => simp at hv
  | cons m ms ih =>
    cases x with
    | nil => simp at hlen
    | cons y ys =>
      have h0 : y.length = m.length := by simpa using hrows 0
      have ht : ∀ t, (ys.getD t []).length = (ms.getD t []).length := fun t => by
        simpa using hrows (t + 1)
      cases i with
      | zero =>
        have hv0 : m.getD c false = true := by simpa using hv
        have hlt : cntT (m.take c) < (selRow m y).length := by
          rw [selRow_length m y h0]
          exact cntT_take_lt m c hv0
        rw [packStream_cons]
        show (selRow m y ++ packStream ms ys).getD (cntT (m.take c)) d = _
        rw [getD_append_left _ _ _ _ hlt, selRow_getD m y c d h0 hv0]
        simp
      | succ i' =>
        have hv' : (ms.getD i' []).getD c false = true := by simpa using hv
        rw [packStream_cons]
        show (selRow m y ++ packStream ms ys).getD (cntT m + flatIdx ms i' c) d = _
        rw [← selRow_length m y h0, getD_append_right,
          ih ys i' (by simpa using hlen) ht hv']
        simp

theorem padRow_length (z : α) (m : List Bool) (vals : List α) :
    (padRow z m vals).length = m.length := by
  induction m generalizing vals with
  | nil => simp [padRow]
  | cons b ms ih =>
    cases b with
    | false => simp [padRow, ih]
    | true =>
      cases vals with
      | nil => simp [padRow, ih]
      | cons v vs => simp [padRow, ih]

theorem padRow_getD (z : α) (m : List Bool) (vals : List α) (c : Nat)
    (h : vals.length = cntT m) :
    (padRow z m vals).getD c z =
      if m.getD c false then vals.getD (cntT (m.take c)) z else z := by
  induction m generalizing vals c with
  | nil => simp [padRow]
  | cons b ms ih =>
    cases b with
    | false =>
      cases c with
      | zero => simp [padRow]
      | succ c' =>
        have h' : vals.length = cntT ms := by simpa [cntT] using h
        simpa [padRow, cntT] using ih vals c' h'
    | true =>
      cases vals with
      | nil => simp [cntT] at h
      | cons v vs =>
        cases c with
        | zero => simp [padRow, cntT]
        | succ c' =>
          have h' : vs.length = cntT ms := by
            simp [cntT] at h
            omega
          have := ih vs c' h'
          by_cases hm : ms.getD c' false = true <;>
            simp [padRow, cntT, hm] at this ⊢ <;> simp [this]

theorem padInput_length (z : α) (mask : List (List Bool)) (vals : List α) :
    (padInput z mask vals).length = mask.length := by
  induction mask generalizing vals with
  | nil => simp [padInput]
  | cons m ms ih => simp [padInput, ih]

theorem padInput_row_length (z : α) (mask : List (List Bool)) (vals : List α) (i : Nat) :
    ((padInput z mask vals).getD i []).length = (mask.getD i []).length := by
  induction mask generalizing vals i with
  | nil => simp [padInput]
  | cons m ms ih =>
    cases i with
    | zero => simp [padInput, padRow_length]
    | succ i' => simpa [padInput] using ih (vals.drop (cntT m)) i'

theorem padInput_getD (z : α) (mask : List (List Bool)) (vals : List α) (i c : Nat)
    (h : vals.length = totalCnt mask) :
    ((padInput z mask vals).getD i []).getD c z =
      if (mask.getD i []).getD c false then vals.getD (flatIdx mask i c) z else z := by
  induction mask generalizing vals i with
  | nil => simp [padInput]
  | cons m ms ih =>
    have htot : vals.length = cntT m + totalCnt ms := by simpa [totalCnt] using h
    cases i with
    | zero =>
      have htk : (vals.take (cntT m)).length = cntT m := by
        simp [List.length_take]
        omega
      show (padRow z m (vals.take (cntT m))).getD c z = _
      rw [padRow_getD z m _ c htk]
      simp only [List.getD_cons_zero, flatIdx]
      by_cases hv : m.getD c false = true
      · rw [if_pos hv, if_pos hv, getD_take_lt _ _ _ _ (cntT_take_lt m c hv)]
      · rw [if_neg hv, if_neg hv]
    | succ i' =>
      have hd : (vals.drop (cntT m)).length = totalCnt ms := by
        simp [List.length_drop]
        omega
      show ((padInput z ms (vals.drop (cntT m))).getD i' []).getD c z = _
      rw [ih (vals.drop (cntT m)) i' hd]
      simp only [getD_drop, List.getD_cons_succ, flatIdx]

theorem rollL_length (l : List α) : (rollL l).length = l.length := by
  cases l <;> simp [rollL]

theorem rollL_getD (l : List α) (k : Nat) (d : α) (h : k + 1 < l.length) :
    (rollL l).getD k d = l.getD (k + 1) d := by
  cases l with
  | nil => simp at h
  | cons x xs =>
    have hk : k < xs.length := by simpa using h
    rw [rollL]
    show (xs ++ [x]).getD k d = _
    rw [getD_append_left _ _ _ _ hk]
    simp

/-! ### Packed forward value lemmas -/

theorem packedLabels_getD (cfg : FwdCfg) (mask : List (List Bool)) (ids : List (List Nat))
    (k : Nat) (h : k + 1 < (packStream mask ids).length) :
    (packedLabels cfg mask ids).getD k 0 = (packStream mask ids).getD (k + 1) 0 := by
  by_cases hsp : 1 < cfg.sp_size
  · rw [packedLabels, if_pos hsp,
      getD_append_left _ _ _ _ (by rw [rollL_length]; omega), rollL_getD _ _ _ h]
  · rw [packedLabels, if_neg hsp, rollL_getD _ _ _ h]

theorem packedScaled_length (model : ModelInput → List (List (List ℚ))) (cfg : FwdCfg)
    (mask : List (List Bool)) (ids pos : List (List Nat)) (τ : ℚ)
    (hML : (packedLogits model cfg mask ids pos).length = (packedIn cfg mask ids).length) :
    (packedScaled model cfg mask ids pos τ).length =
      (packStream mask ids).length +
        (if 1 < cfg.sp_size then ulyPad (packStream mask ids).length cfg.sp_size else 0) := by
  by_cases hsp : 1 < cfg.sp_size <;>
    simp [packedScaled, hML, packedIn, hsp]

theorem packedLabels_length (cfg : FwdCfg) (mask : List (List Bool)) (ids : List (List Nat)) :
    (packedLabels cfg mask ids).length =
      (packStream mask ids).length +
        (if 1 < cfg.sp_size then ulyPad (packStream mask ids).length cfg.sp_size else 0) := by
  by_cases hsp : 1 < cfg.sp_size <;> simp [packedLabels, hsp, rollL_length]

theorem packedLpFlat_getD (model : ModelInput → List (List (List ℚ)))
    (lpOf : List ℚ → Nat → ℚ) (cfg : FwdCfg) (mask : List (List Bool))
    (ids pos : List (List Nat)) (τ : ℚ) (k : Nat)
    (hML : (packedLogits model cfg mask ids pos).length = (packedIn cfg mask ids).length)
    (hk : k < (packStream mask ids).length) :
    (packedLpFlat model lpOf cfg mask ids pos τ).getD k 0 =
      lpOf ((packedScaled model cfg mask ids pos τ).getD k [])
        ((packedLabels cfg mask ids).getD k 0) := by
  have hsck : k < (packedScaled model cfg mask ids pos τ).length := by
    rw [packedScaled_length model cfg mask ids pos τ hML]
    omega
  have hlk : k < (packedLabels cfg mask ids).length := by
    rw [packedLabels_length]
    omega
  by_cases hsp : 1 < cfg.sp_size
  · rw [packedLpFlat, if_pos hsp, getD_take_lt _ _ _ _ hk,
      getD_zipWith lpOf _ _ k 0 [] 0 hsck hlk]
  · rw [packedLpFlat, if_neg hsp, getD_zipWith lpOf _ _ k 0 [] 0 hsck hlk]

theorem packedEntFlat_getD (model : ModelInput → List (List (List ℚ)))
    (entOf : List ℚ → ℚ) (cfg : FwdCfg) (mask : List (List Bool))
    (ids pos : List (List Nat)) (τ : ℚ) (k : Nat)
    (hML : (packedLogits model cfg mask ids pos).length = (packedIn cfg mask ids).length)
    (hk : k < (packStream mask ids).length) :
    (packedEntFlat model entOf cfg mask ids pos τ).getD k 0 =
      entOf ((packedScaled model cfg mask ids pos τ).getD k []) := by
  have hsck : k < (packedScaled model cfg mask ids pos τ).length := by
    rw [packedScaled_length model cfg mask ids pos τ hML]
    omega
  by_cases hsp : 1 < cfg.sp_size
  · rw [packedEntFlat, if_pos hsp, getD_take_lt _ _ _ _ hk,
      getD_map_lt entOf _ _ _ [] hsck]
  · rw [packedEntFlat, if_neg hsp, getD_map_lt entOf _ _ _ [] hsck]

theorem packedLpFlat_length (model : ModelInput → List (List (List ℚ)))
    (lpOf : List ℚ → Nat → ℚ) (cfg : FwdCfg) (mask : List (List Bool))
    (ids pos : List (List Nat)) (τ : ℚ)
    (hML : (packedLogits model cfg mask ids pos).length = (packedIn cfg mask ids).length)
    (hlen : mask.length = ids.length)
    (hrows : ∀ t, ((ids.getD t []).length = (mask.getD t []).length)) :
    (packedLpFlat model lpOf cfg mask ids pos τ).length = totalCnt mask := by
  have hL := packStream_length mask ids hlen hrows
  have hsc := packedScaled_length model cfg mask ids pos τ hML
  have hlb := packedLabels_length cfg mask ids
  by_cases hsp : 1 < cfg.sp_size
  · simp only [hsp, if_true] at hsc hlb
    simp only [packedLpFlat, hsp, if_true, List.length_take, List.length_zipWith]
    omega
  · simp only [hsp, if_false] at hsc hlb
    simp only [packedLpFlat, hsp, if_false, List.length_zipWith]
    omega

theorem packedEntFlat_length (model : ModelInput → List (List (List ℚ)))
    (entOf : List ℚ → ℚ) (cfg : FwdCfg) (mask : List (List Bool))
    (ids pos : List (List Nat)) (τ : ℚ)
    (hML : (packedLogits model cfg mask ids pos).length = (packedIn cfg mask ids).length)
    (hlen : mask.length = ids.length)
    (hrows : ∀ t, ((ids.getD t []).length = (mask.getD t []).length)) :
    (packedEntFlat model entOf cfg mask ids pos τ).length = totalCnt mask := by
  have hL := packStream_length mask ids hlen hrows
  have hsc := packedScaled_length model cfg mask ids pos τ hML
  by_cases hsp : 1 < cfg.sp_size
  · simp only [hsp, if_true] at hsc
    simp only [packedEntFlat, hsp, if_true, List.length_take, List.length_map]
    omega
  · simp only [hsp, if_false] at hsc
    simp only [packedEntFlat, hsp, if_false, List.length_map]
    omega

/-! ### Claims C3, C7 and C8 -/

/-- C3: in the packed path, the returned entropy/log-probability tensors are
exactly the columns `S-R-1` up to (excluding) `S-1` of the zero-filled
scattered `(N, S)` layout, and the slot `(i, j)` of the log-probability
output is the abstract log-softmax gather `lpOf` applied to the
temperature-scaled logits of the packed position preceding response token
`j` with label equal to response token `j` of example `i` (the entropy slot
is `entOf` of the same logits); the dense path computes `lpOf`/`entOf` on
the identically sliced dense scaled logits with the response tokens as
labels. -/
theorem C3_response_slice (model : ModelInput → List (List (List ℚ)))
    (lpOf : List ℚ → Nat → ℚ) (entOf : List ℚ → ℚ) (cfg : FwdCfg)
    (ids pos : List (List Nat)) (mask : List (List Bool)) (resp : List (List Nat))
    (τ : ℚ) (S R i j : Nat)
    (hS : (ids.headD []).length = S) (hR : (resp.headD []).length = R)
    (hlen : mask.length = ids.length)
    (hrows : ∀ t, (ids.getD t []).length = (mask.getD t []).length)
    (hRS : R + 1 ≤ S) (hjR : j < R)
    (hML : (packedLogits model cfg mask ids pos).length = (packedIn cfg mask ids).length)
    (hv0 : (mask.getD i []).getD (S - R - 1 + j) false = true)
    (hv1 : (mask.getD i []).getD (S - R + j) false = true)
    (hresp : (resp.getD i []).getD j 0 = (ids.getD i []).getD (S - R + j) 0) :
    (cfg.use_remove_padding = true →
      forward_micro_batch model lpOf entOf cfg ids pos mask resp τ =
        ((padInput 0 mask (packedEntFlat model entOf cfg mask ids pos τ)).map (sliceResp S R),
         (padInput 0 mask (packedLpFlat model lpOf cfg mask ids pos τ)).map (sliceResp S R)) ∧
      ((forward_micro_batch model lpOf entOf cfg ids pos mask resp τ).2.getD i []).getD j 0 =
        lpOf ((packedScaled model cfg mask ids pos τ).getD (flatIdx mask i (S - R - 1 + j)) [])
          ((resp.getD i []).getD j 0) ∧
      ((forward_micro_batch model lpOf entOf cfg ids pos mask resp τ).1.getD i []).getD j 0 =
        entOf ((packedScaled model cfg mask ids pos τ).getD (flatIdx mask i (S - R - 1 + j)) [])) ∧
    (cfg.use_remove_padding = false →
      i < (denseScaledLogits model ids pos mask τ).length →
      ((denseScaledLogits model ids pos mask τ).getD i []).length = S →
      i < resp.length →
      (resp.getD i []).length = R →
      ((forward_micro_batch model lpOf entOf cfg ids pos mask resp τ).2.getD i []).getD j 0 =
        lpOf (((denseScaledLogits model ids pos mask τ).getD i []).getD (S - R - 1 + j) [])
          ((resp.getD i []).getD j 0) ∧
      ((forward_micro_batch model lpOf entOf cfg ids pos mask resp τ).1.getD i []).getD j 0 =
        entOf (((denseScaledLogits model ids pos mask τ).getD i []).getD (S - R - 1 + j) [])) := by
  have hc01 : S - R - 1 + j + 1 = S - R + j := by omega
  have hiN : i < mask.length := valid_row_lt mask i (S - R - 1 + j) hv0
  have hLtot : (packStream mask ids).length = totalCnt mask :=
    packStream_length mask ids hlen hrows
  have hkL : flatIdx mask i (S - R - 1 + j) < totalCnt mask :=
    flatIdx_lt_totalCnt mask i _ hv0
  have hk1 : flatIdx mask i (S - R + j) = flatIdx mask i (S - R - 1 + j) + 1 := by
    rw [← hc01]
    exact flatIdx_succ mask i _ hv0
  have hk1L : flatIdx mask i (S - R - 1 + j) + 1 < totalCnt mask := by
    rw [← hk1]
    exact flatIdx_lt_totalCnt mask i _ hv1
  constructor
  · intro hrm
    have hfwd : forward_micro_batch model lpOf entOf cfg ids pos mask resp τ =
        ((padInput 0 mask (packedEntFlat model entOf cfg mask ids pos τ)).map (sliceResp S R),
         (padInput 0 mask (packedLpFlat model lpOf cfg mask ids pos τ)).map (sliceResp S R)) := by
      simp only [forward_micro_batch, hS, hR, hrm, if_true]
    refine ⟨hfwd, ?_, ?_⟩
    · rw [hfwd, hresp]
      show (((padInput 0 mask (packedLpFlat model lpOf cfg mask ids pos τ)).map
        (sliceResp S R)).getD i []).getD j 0 = _
      rw [getD_map_lt _ _ _ [] [] (by rw [padInput_length]; exact hiN), sliceResp,
        getD_take_lt _ _ _ _ hjR, getD_drop,
        padInput_getD 0 mask _ i (S - R - 1 + j)
          (packedLpFlat_length model lpOf cfg mask ids pos τ hML hlen hrows),
        if_pos hv0,
        packedLpFlat_getD model lpOf cfg mask ids pos τ _ hML (by rw [hLtot]; exact hkL),
        packedLabels_getD cfg mask ids _ (by rw [hLtot]; exact hk1L),
        ← hk1, packStream_getD mask ids i (S - R + j) 0 hlen hrows hv1]
    · rw [hfwd]
      show (((padInput 0 mask (packedEntFlat model entOf cfg mask ids pos τ)).map
        (sliceResp S R)).getD i []).getD j 0 = _
      rw [getD_map_lt _ _ _ [] [] (by rw [padInput_length]; exact hiN), sliceResp,
        getD_take_lt _ _ _ _ hjR, getD_drop,
        padInput_getD 0 mask _ i (S - R - 1 + j)
          (packedEntFlat_length model entOf cfg mask ids pos τ hML hlen hrows),
        if_pos hv0,
        packedEntFlat_getD model entOf cfg mask ids pos τ _ hML (by rw [hLtot]; exact hkL)]
  · intro hrm hdl hdrow hrN hrrow
    have hfwd : forward_micro_batch model lpOf entOf cfg ids pos mask resp τ =
        (((denseScaledLogits model ids pos mask τ).map (sliceResp S R)).map (List.map entOf),
         List.zipWith (fun rv rt => List.zipWith lpOf rv rt)
           ((denseScaledLogits model ids pos mask τ).map (sliceResp S R)) resp) := by
      simp only [forward_micro_batch, hS, hR, hrm, Bool.false_eq_true, if_false]
    have hslen : i < ((denseScaledLogits model ids pos mask τ).map (sliceResp S R)).length := by
      rw [List.length_map]
      exact hdl
    have hrow : ((denseScaledLogits model ids pos mask τ).map (sliceResp S R)).getD i [] =
        sliceResp S R ((denseScaledLogits model ids pos mask τ).getD i []) :=
      getD_map_lt _ _ _ [] [] hdl
    have hsr : (sliceResp S R ((denseScaledLogits model ids pos mask τ).getD i [])).length = R := by
      rw [sliceResp, List.length_take, List.length_drop, hdrow]
      omega
    constructor
    · rw [hfwd]
      show ((List.zipWith (fun rv rt => List.zipWith lpOf rv rt)
        ((denseScaledLogits model ids pos mask τ).map (sliceResp S R)) resp).getD i []).getD j 0 = _
      rw [getD_zipWith _ _ _ i [] [] [] hslen hrN, hrow,
        getD_zipWith lpOf _ _ j 0 [] 0 (by rw [hsr]; exact hjR) (by rw [hrrow]; exact hjR),
        sliceResp, getD_take_lt _ _ _ _ hjR, getD_drop]
    · rw [hfwd]
      show ((((denseScaledLogits model ids pos mask τ).map (sliceResp S R)).map
        (List.map entOf)).getD i []).getD j 0 = _
      rw [getD_map_lt _ _ _ [] [] hslen, hrow,
        getD_map_lt entOf _ _ _ [] (by rw [hsr]; exact hjR),
        sliceResp, getD_take_lt _ _ _ _ hjR, getD_drop]

theorem C3_response_slice_witness :
    ((forward_micro_batch modelW lpW entW cfgP idsW posW maskW respW 1).2.getD 0 []).getD 0 0 =
      lpW ((packedScaled modelW cfgP maskW idsW posW 1).getD (flatIdx maskW 0 1) [])
        ((respW.getD 0 []).getD 0 0) ∧
    ((forward_micro_batch modelW lpW entW cfgD idsW posW maskW respW 1).2.getD 0 []).getD 0 0 =
      lpW (((denseScaledLogits modelW idsW posW maskW 1).getD 0 []).getD 1 [])
        ((respW.getD 0 []).getD 0 0) :=
  ⟨((C3_response_slice modelW lpW entW cfgP idsW posW maskW respW 1 3 1 0 0
      (by decide) (by decide) (by decide) (fun t => by cases t <;> rfl)
      (by decide) (by decide) (by decide) (by decide) (by decide) (by decide)).1
      rfl).2.1,
   ((C3_response_slice modelW lpW entW cfgD idsW posW maskW respW 1 3 1 0 0
      (by decide) (by decide) (by decide) (fun t => by cases t <;> rfl)
      (by decide) (by decide) (by decide) (by decide) (by decide) (by decide)).2
      rfl (by decide) (by decide) (by decide) (by decide)).1⟩

/-- C7: the packed path invokes the external model with the packed token
ids and position ids, a `None` attention mask and caching disabled — its
output depends on the model only through that single invocation — and the
logits are divided by the temperature before any entropy or log-probability
is computed: running at temperature `τ` coincides with running a model
whose logits are pre-divided by `τ` at temperature 1. -/
theorem C7_packed_invocation_and_temperature
    (model m₂ : ModelInput → List (List (List ℚ)))
    (lpOf : List ℚ → Nat → ℚ) (entOf : List ℚ → ℚ) (cfg : FwdCfg)
    (ids pos : List (List Nat)) (mask : List (List Bool)) (resp : List (List Nat)) (τ : ℚ)
    (hrm : cfg.use_remove_padding = true)
    (hagree : model (packedModelInput cfg mask ids pos) =
      m₂ (packedModelInput cfg mask ids pos)) :
    (packedModelInput cfg mask ids pos).attention_mask = none ∧
    (packedModelInput cfg mask ids pos).use_cache = false ∧
    (packedModelInput cfg mask ids pos).input_ids = [packedIn cfg mask ids] ∧
    (packedModelInput cfg mask ids pos).position_ids = [packedIn cfg mask pos] ∧
    forward_micro_batch model lpOf entOf cfg ids pos mask resp τ =
      forward_micro_batch m₂ lpOf entOf cfg ids pos mask resp τ ∧
    forward_micro_batch model lpOf entOf cfg ids pos mask resp τ =
      forward_micro_batch (fun inp => (model inp).map (List.map (List.map (· / τ))))
        lpOf entOf cfg ids pos mask resp 1 := by
  refine ⟨rfl, rfl, rfl, rfl, ?_, ?_⟩
  · simp only [forward_micro_batch, hrm, if_true, packedEntFlat, packedLpFlat,
      packedScaled, packedLogits, hagree]
  · have hsc : packedScaled (fun inp => (model inp).map (List.map (List.map (· / τ))))
        cfg mask ids pos 1 = packedScaled model cfg mask ids pos τ := by
      simp only [packedScaled, packedLogits]
      cases hmp : model (packedModelInput cfg mask ids pos) with
      | nil => simp
      | cons h t => simp [List.map_map, Function.comp_def, div_one]
    simp only [forward_micro_batch, hrm, if_true, packedEntFlat, packedLpFlat, hsc]

theorem C7_packed_invocation_witness :
    forward_micro_batch modelW lpW entW cfgP idsW posW maskW respW 1 =
      forward_micro_batch modelW lpW entW cfgP idsW posW maskW respW 1 ∧
    forward_micro_batch modelW lpW entW cfgP idsW posW maskW respW 1 =
      forward_micro_batch (fun inp => (modelW inp).map (List.map (List.map (· / 1))))
        lpW entW cfgP idsW posW maskW respW 1 :=
  ⟨(C7_packed_invocation_and_temperature modelW modelW lpW entW cfgP idsW posW maskW respW 1
      rfl rfl).2.2.2.2.1,
   (C7_packed_invocation_and_temperature modelW modelW lpW entW cfgP idsW posW maskW respW 1
      rfl rfl).2.2.2.2.2⟩

/-- C8: with remove-padding enabled and sequence-parallel width greater
than 1, `_forward_micro_batch_2` always fails (the `assert False` after
gathering), and consequently `compute_all_logits` never completes
successfully on a non-empty batch in that configuration. -/
theorem C8_full_logits_sp_unsupported (model : ModelInput → List (List (List ℚ)))
    (lpOf : List ℚ → Nat → ℚ) (entOf : List ℚ → ℚ) (cfg : FwdCfg) (τ : ℚ)
    (hrm : cfg.use_remove_padding = true) (hsp : 1 < cfg.sp_size) :
    (∀ (ids pos : List (List Nat)) (mask : List (List Bool)) (resp : List (List Nat)),
      forward_micro_batch_2 model lpOf entOf cfg ids pos mask resp τ = none) ∧
    (∀ (use_dyn : Bool) (msize budget : Nat) (batch : List Ex4), batch ≠ [] →
      compute_all_logits model lpOf entOf cfg use_dyn msize budget τ batch = none) := by
  have hf : ∀ (ids pos : List (List Nat)) (mask : List (List Bool)) (resp : List (List Nat)),
      forward_micro_batch_2 model lpOf entOf cfg ids pos mask resp τ = none := by
    intro ids pos mask resp
    simp [forward_micro_batch_2, hrm, hsp]
  refine ⟨hf, ?_⟩
  intro use_dyn msize budget batch hb
  have hne : (if use_dyn then
      (rearrange_micro_batches batch (fun e => cntT e.msk) budget ex4D).1
    else splitChunks msize batch) ≠ [] := by
    by_cases hd : use_dyn = true
    · simp only [hd, if_true]
      intro h
      have h2 : (rearrange_micro_batches batch (fun e => cntT e.msk) budget ex4D).2 = [] := by
        have hrel : (rearrange_micro_batches batch (fun e => cntT e.msk) budget ex4D).1 =
            (rearrange_micro_batches batch (fun e => cntT e.msk) budget ex4D).2.map
              (fun g => g.map (fun t => batch.getD t ex4D)) := rfl
        rw [hrel] at h
        exact List.map_eq_nil_iff.mp h
      have hlen := (rearrange_flatten_perm batch (fun e => cntT e.msk) budget ex4D).length_eq
      rw [h2] at hlen
      simp at hlen
      exact hb (List.length_eq_zero.mp hlen.symm)
    · simp only [hd, if_false]
      cases batch with
      | nil => exact absurd rfl hb
      | cons e es => simp [splitChunks, splitChunksF]
  obtain ⟨m0, rest, hm⟩ := List.exists_cons_of_ne_nil hne
  simp only [compute_all_logits, hm, mapOpt, hf]
  simp

theorem C8_full_logits_sp_witness :
    forward_micro_batch_2 modelW lpW entW cfgSp idsW posW maskW respW 1 = none ∧
    compute_all_logits modelW lpW entW cfgSp true 1 5 1 batchC8 = none :=
  ⟨(C8_full_logits_sp_unsupported modelW lpW entW cfgSp 1 rfl (by decide)).1 idsW posW maskW respW,
   (C8_full_logits_sp_unsupported modelW lpW entW cfgSp 1 rfl (by decide)).2 true 1 5 batchC8
     (by decide)⟩

/-! ### Claim C9: response-mask key selection -/

theorem dpSelect_some_of_all (b : BatchT) (ks : List String)
    (h : ∀ k, k ∈ ks → (lookupT b k).isSome = true) :
    ∃ sel, dpSelect b ks = some sel := by
  induction ks with
  | nil => exact ⟨[], rfl⟩
  | cons k ks ih =>
    obtain ⟨t, ht⟩ := Option.isSome_iff_exists.mp (h k (by simp))
    obtain ⟨sel, hsel⟩ := ih (fun k' hk' => h k' (by simp [hk']))
    exact ⟨(k, t) :: sel, by simp [dpSelect, ht, hsel]⟩

theorem dpSelect_none_of_missing (b : BatchT) (ks : List String) (k : String)
    (hk : k ∈ ks) (h : lookupT b k = none) : dpSelect b ks = none := by
  induction ks with
  | nil => simp at hk
  | cons k' ks ih =>
    rcases List.mem_cons.mp hk with he | hm
    · subst he
      simp [dpSelect, h]
    · have ht := ih hm
      cases hx : lookupT b k' <;> simp [dpSelect, hx, ht]

theorem lookupT_dpSelect_not_mem (b : BatchT) (ks : List String) (sel : BatchT) (k : String)
    (h : dpSelect b ks = some sel) (hk : ¬k ∈ ks) : lookupT sel k = none := by
  induction ks generalizing sel with
  | nil =>
    simp only [dpSelect, Option.some.injEq] at h
    subst h
    rfl
  | cons k' ks ih =>
    cases hx : lookupT b k' with
    | none => simp [dpSelect, hx] at h
    | some t =>
      cases hy : dpSelect b ks with
      | none => simp [dpSelect, hx, hy] at h
      | some rest =>
        simp only [dpSelect, hx, hy, Option.some.injEq] at h
        subst h
        have hk1 : k' ≠ k := fun he => hk (by simp [he])
        have hk2 : ¬k ∈ ks := fun hm => hk (by simp [hm])
        simp [lookupT, hk1, ih rest hy hk2]

theorem lookupT_dpSelect_mem (b : BatchT) (ks : List String) (sel : BatchT) (k : String)
    (h : dpSelect b ks = some sel) (hk : k ∈ ks) : lookupT sel k = lookupT b k := by
  induction ks generalizing sel with
  | nil => simp at hk
  | cons k' ks ih =>
    cases hx : lookupT b k' with
    | none => simp [dpSelect, hx] at h
    | some t =>
      cases hy : dpSelect b ks with
      | none => simp [dpSelect, hx, hy] at h
      | some rest =>
        simp only [dpSelect, hx, hy, Option.some.injEq] at h
        subst h
        by_cases he : k' = k
        · subst he
          simp [lookupT, hx]
        · rcases List.mem_cons.mp hk with h1 | h2
          · exact absurd h1.symm he
          · simp [lookupT, he, ih rest hy h2]

theorem respMaskPr_not_mem_baseKeys (cfg : UPConfig) :
    ¬"response_mask_pr" ∈ baseKeys cfg := by
  by_cases h1 : cfg.use_kl_loss <;> by_cases h2 : cfg.use_sft_loss && cfg.sft_multi_task <;>
    simp [baseKeys, h1, h2]

theorem attMask_mem_baseKeys (cfg : UPConfig) : "attention_mask" ∈ baseKeys cfg := by
  by_cases h1 : cfg.use_kl_loss <;> by_cases h2 : cfg.use_sft_loss && cfg.sft_multi_task <;>
    simp [baseKeys, h1, h2]

/-- C9: `response_mask_pr` is selected into the working batch exactly when
the input batch contains a key named `response_mask_prob`; a batch carrying
`response_mask_pr` but not `response_mask_prob` (with all required keys
present) selects successfully, the override is dropped from the working
batch, and the loss-side response mask falls back to the last `R` columns of
the attention mask; a batch carrying `response_mask_prob` without
`response_mask_pr` fails at selection. -/
theorem C9_response_mask_selection (cfg : UPConfig) (b : BatchT) (R : Nat) :
    ("response_mask_pr" ∈ selectKeysNormal cfg b ↔
      (lookupT b "response_mask_prob").isSome = true) ∧
    (lookupT b "response_mask_prob" = none →
      (∀ k, k ∈ baseKeys cfg → (lookupT b k).isSome = true) →
      ∃ sel, dpSelect b (selectKeysNormal cfg b) = some sel ∧
        lookupT sel "response_mask_pr" = none ∧
        responseMaskUsed sel R =
          ((lookupT b "attention_mask").getD []).map
            (fun row => row.drop (row.length - R))) ∧
    ((lookupT b "response_mask_prob").isSome = true →
      lookupT b "response_mask_pr" = none →
      dpSelect b (selectKeysNormal cfg b) = none) := by
  refine ⟨?_, ?_, ?_⟩
  · by_cases hp : (lookupT b "response_mask_prob").isSome = true
    · simp [selectKeysNormal, hp]
    · simp [selectKeysNormal, hp, respMaskPr_not_mem_baseKeys cfg]
  · intro hprob hbase
    have hsel : selectKeysNormal cfg b = baseKeys cfg := by
      simp [selectKeysNormal, hprob]
    obtain ⟨sel, hs⟩ := dpSelect_some_of_all b (baseKeys cfg) hbase
    have hpr : lookupT sel "response_mask_pr" = none :=
      lookupT_dpSelect_not_mem b _ sel _ hs (respMaskPr_not_mem_baseKeys cfg)
    refine ⟨sel, by rw [hsel]; exact hs, hpr, ?_⟩
    have hatt : lookupT sel "attention_mask" = lookupT b "attention_mask" :=
      lookupT_dpSelect_mem b _ sel _ hs (attMask_mem_baseKeys cfg)
    rw [responseMaskUsed, hpr, hatt]
  · intro hprob hpr
    have hsel : selectKeysNormal cfg b = baseKeys cfg ++ ["response_mask_pr"] := by
      simp [selectKeysNormal, hprob]
    rw [hsel]
    exact dpSelect_none_of_missing b _ _ (by simp) hpr

theorem C9_response_mask_selection_witness :
    (∃ sel, dpSelect bC9a (selectKeysNormal cfgC5 bC9a) = some sel ∧
      lookupT sel "response_mask_pr" = none ∧
      responseMaskUsed sel 1 =
        ((lookupT bC9a "attention_mask").getD []).map
          (fun row => row.drop (row.length - 1))) ∧
    dpSelect bC9b (selectKeysNormal cfgC5 bC9b) = none :=
  ⟨(C9_response_mask_selection cfgC5 bC9a 1).2.1 (by decide) (by decide),
   (C9_response_mask_selection cfgC5 bC9b 1).2.2 (by decide) (by decide)⟩

end RLPR
